import Mathlib

/-!
Verification of the Evidence Relevance Correlation Engine of docHub
(backend/s3.py), shallowly embedded in Lean 4.

Scores are embedded as rationals, machine floats in the source carry exact
decimal literals (0.6, 0.8) and the comparisons under scrutiny are order
comparisons on those literals, so `ℚ` is a faithful carrier.  Python `or`
fallbacks on possibly-missing strings are embedded as `Option String`
(with `none` standing for `None`/missing); Python dict rows are embedded
as structures holding exactly the fields the engine reads.  The reasoning
service (`_call_ollama` plus the JSON parsing chain) is a black box whose
parsed outcome is an input: it is passed to the engine model as a function
argument, exactly as §4.2 of the spec treats it.
-/

/-- A parsed relevance verdict, the JSON object the reasoning service is
expected to return (`relevance_score`, `relevance_reason`,
`matched_policies`, `matched_subpolicies`, `matched_compliances`).
The matched fields are lists of ids as in the documented JSON contract. -/
structure Analysis where
  relevance_score : ℚ
  relevance_reason : String
  matched_policies : List Int
  matched_subpolicies : List Int
  matched_compliances : List Int
deriving Repr, DecidableEq

/-- The framework id universe of `audit_details` as consumed by the two
relevance analyzers: the id sets built from
`audit_details['policies'/'subpolicies'/'compliances']`. -/
structure AuditDetails where
  policy_ids : List Int
  subpolicy_ids : List Int
  compliance_ids : List Int
deriving Repr, DecidableEq

/-- The id-filtering tail of `_analyze_document_audit_relevance`
(s3.py lines 2917-2957): each matched list is filtered to the ids that
exist in the current framework. -/
def filterRelevance (details : AuditDetails) (parsed : Analysis) : Analysis :=
  { parsed with
    matched_policies := parsed.matched_policies.filter (· ∈ details.policy_ids)
    matched_subpolicies := parsed.matched_subpolicies.filter (· ∈ details.subpolicy_ids)
    matched_compliances := parsed.matched_compliances.filter (· ∈ details.compliance_ids) }

/-- `_analyze_document_audit_relevance` after the parsing chain: a parsed
response (or `none` when every parse stage failed) is post-filtered
against the framework id sets before being returned. -/
def analyzeDocumentAuditRelevance (details : AuditDetails) (parsed : Option Analysis) :
    Option Analysis :=
  parsed.map (filterRelevance details)

/-- One row of the per-audit documents JSON index
(`doc_entry` built in `_update_json_index_document`). -/
structure DocIndexEntry where
  operation_id : Int
  s3_key : Option String
  stored_name : Option String
  analysis : Analysis
deriving Repr, DecidableEq

/-- One document row coming from `file_operations`
(`_get_all_documents_from_file_operations`): the fields the orchestrator
reads for identity. -/
structure DocRow where
  id : Int
  s3_key : Option String
  stored_name : Option String
deriving Repr, DecidableEq

/-- `doc.get('s3_key') or doc.get('stored_name')`: the stable content key
of a document, s3 key preferred, stored name as fallback. -/
def fileKey (s3 stored : Option String) : Option String :=
  s3 <|> stored

/-- Replace the first element satisfying `p` by its image under `f`
(models "find the row, update that row"). -/
def updateFirst (p : α → Bool) (f : α → α) : List α → List α
  | [] => []
  | x :: xs => if p x then f x :: xs else x :: updateFirst p f xs

/-- The entry-matching test of `_update_json_index_document`:
`(d.get("s3_key") == doc_s3_key) or (d.get("stored_name") == doc_stored_name)`
(note: Python compares the raw values, so two absent keys compare equal). -/
def docKeyMatch (s3 stored : Option String) (d : DocIndexEntry) : Bool :=
  d.s3_key == s3 || d.stored_name == stored

/-- `_update_json_index_document` (s3.py lines 2655-2700): upsert one
document analysis into the documents index.  When the document has a
content key, match an existing entry by s3 key / stored name first and
only fall back to `operation_id` when that finds nothing; replace the
matched entry, else append. -/
def updateJsonIndexDocument (idx : List DocIndexEntry) (opId : Int)
    (res : Analysis) (s3 stored : Option String) : List DocIndexEntry :=
  let entry : DocIndexEntry := ⟨opId, s3, stored, res⟩
  let byOp : List DocIndexEntry → List DocIndexEntry := fun l =>
    if l.any (fun d => d.operation_id == opId) then
      updateFirst (fun d => d.operation_id == opId) (fun _ => entry) l
    else l ++ [entry]
  if (fileKey s3 stored).isSome then
    if idx.any (docKeyMatch s3 stored) then
      updateFirst (docKeyMatch s3 stored) (fun _ => entry) idx
    else byOp idx
  else byOp idx

/-- `analyzed_file_keys` built once from the documents index at the start
of an audit run (s3.py lines 1733-1742). -/
def analyzedFileKeys (idx : List DocIndexEntry) : List String :=
  idx.filterMap (fun d => fileKey d.s3_key d.stored_name)

/-- `analyzed_operation_ids` built alongside (`if op_id:` keeps only
truthy, i.e. nonzero, ids). -/
def analyzedOperationIds (idx : List DocIndexEntry) : List Int :=
  idx.filterMap (fun d => if d.operation_id ≠ 0 then some d.operation_id else none)

/-- The skip test of the document loop (s3.py lines 1745-1760): skip when
the content key is already analyzed; otherwise also skip when the
operation id appears in the index (backward-compatibility check). -/
def docAlreadyAnalyzed (idx0 : List DocIndexEntry) (doc : DocRow) : Bool :=
  ((fileKey doc.s3_key doc.stored_name).any (fun k => (analyzedFileKeys idx0).contains k))
  || (analyzedOperationIds idx0).contains doc.id

/-- One row of the per-audit database JSON index
(`record_entry` built in `_update_json_index_database`). -/
structure DbIndexEntry where
  table_name : String
  record_id : Int
  analysis : Analysis
deriving Repr, DecidableEq

/-- The database index: `data["database_data"]`, a dict from table name to
the list of analyzed record entries, embedded as an association list in
insertion order. -/
abbrev DbIndex := List (String × List DbIndexEntry)

/-- Upsert within one table's entry list, matched by `record_id`. -/
def updateTableEntries (t : String) (rid : Int) (res : Analysis)
    (entries : List DbIndexEntry) : List DbIndexEntry :=
  if entries.any (fun r => r.record_id == rid) then
    updateFirst (fun r => r.record_id == rid) (fun _ => ⟨t, rid, res⟩) entries
  else entries ++ [⟨t, rid, res⟩]

/-- `_update_json_index_database` (s3.py lines 2702-2733): upsert one
database record analysis under its table. -/
def updateJsonIndexDatabase (idx : DbIndex) (t : String) (rid : Int)
    (res : Analysis) : DbIndex :=
  if idx.any (fun p => p.1 == t) then
    updateFirst (fun p => p.1 == t) (fun p => (p.1, updateTableEntries t rid res p.2)) idx
  else idx ++ [(t, updateTableEntries t rid res [])]

/-- One raw relational row offered as record evidence; `record_id` is the
result of `_get_db_record_id` on it (`none` when no primary key could be
resolved), `payload` abstracts the row content shown to the reasoning
service. -/
structure DbRecord where
  record_id : Option Int
  payload : String
deriving Repr, DecidableEq

/-- A database analysis as produced by `_analyze_database_data_relevance`:
the parsed verdict with `analysis["record_id"]` attached
(`record_id if record_id is not None else 0`).  The matched id lists are
stored exactly as parsed: this function applies no framework filtering. -/
structure DbAnalysis where
  record_id : Int
  analysis : Analysis
deriving Repr, DecidableEq

/-- The per-table loop of `_analyze_database_data_relevance` (s3.py lines
1566-1663): analyze at most the first 50 records; records whose
call/parse chain yields nothing are silently skipped; each parsed verdict
is kept verbatim with the resolved record id attached. -/
def analyzeDbTable (analyzer : String → DbRecord → Option Analysis)
    (t : String) (records : List DbRecord) : List DbAnalysis :=
  (records.take 50).filterMap
    (fun r => (analyzer t r).map (fun a => ⟨r.record_id.getD 0, a⟩))

/-- Lookup of a table's entry list in the database index. -/
def lookupTable (idx : DbIndex) (t : String) : Option (List DbIndexEntry) :=
  (idx.find? (fun p => p.1 == t)).map Prod.snd

/-- `already_analyzed_db` membership (s3.py lines 1789-1804). -/
def alreadyAnalyzedDb (idx : DbIndex) (t : String) (rid : Int) : Bool :=
  match lookupTable idx t with
  | some entries => entries.any (fun e => e.record_id == rid)
  | none => false

/-- The incremental filter (s3.py lines 1809-1824): keep only records
with a resolvable primary key that is not yet in the database index. -/
def newRecords (idx : DbIndex) (t : String) (records : List DbRecord) :
    List DbRecord :=
  records.filter (fun r =>
    match r.record_id with
    | none => false
    | some rid => !(alreadyAnalyzedDb idx t rid))

/-- One table's worth of index updates: entries with a truthy record id
are upserted into the database index. -/
def applyTableResults (t : String) (analyses : List DbAnalysis) (idx : DbIndex) :
    DbIndex :=
  analyses.foldl
    (fun idx a =>
      if a.record_id ≠ 0 then updateJsonIndexDatabase idx t a.record_id a.analysis
      else idx)
    idx

/-- The index-update loop over the fresh analyses (s3.py lines
1836-1841). -/
def applyDbResults (idx : DbIndex) (results : List (String × List DbAnalysis)) :
    DbIndex :=
  results.foldl (fun idx p => applyTableResults p.1 p.2 idx) idx

/-- One row of the SQL resolution
`SELECT c.ComplianceId, c.SubPolicyId, sp.PolicyId FROM compliance c
LEFT JOIN subpolicies sp ...` (the left join makes both mapped ids
nullable). -/
structure ComplianceRow where
  complianceId : Int
  subPolicyId : Option Int
  policyId : Option Int
deriving Repr, DecidableEq

/-- Python truthiness of a nullable integer id. -/
def truthyOpt : Option Int → Bool
  | some v => v != 0
  | none => false

/-- The `compliance_analyses` payload attached to database evidence
(`db_compliance_analysis_json`, s3.py lines 2066-2082), keeping the
fields the engine writes. -/
structure AnalysisSnapshot where
  table_name : String
  record_id : Int
  compliance_id : Int
  relevance_score : ℚ
  relevance_reason : String
deriving Repr, DecidableEq

/-- One `ai_audit_data` row, restricted to the columns the engine reads
or writes along the verified paths. -/
structure EvidenceRow where
  rowId : Int
  audit_id : Int
  external_source : String
  external_id : String
  policy_id : Option Int
  subpolicy_id : Option Int
  document_name : String
  document_type : String
  ai_processing_status : String
  compliance_analyses : Option AnalysisSnapshot
  frameworkId : Option Int
deriving Repr, DecidableEq

/-- One `lastchecklistitemverified` row (columns the engine touches). -/
structure ChecklistRow where
  complianceId : Int
  subPolicyId : Int
  policyId : Int
  frameworkId : Int
  complied : String
  comments : String
  count : Int
deriving Repr, DecidableEq

/-- The relational store as the engine sees it: evidence rows, checklist
rows, and the auto-increment counter of `ai_audit_data`. -/
structure DbState where
  evidence : List EvidenceRow
  checklist : List ChecklistRow
  nextId : Int
deriving Repr, DecidableEq

/-- `comp_id` resolution in `_create_ai_evidence_from_database_results`
(s3.py lines 2019-2035): for the `compliances` table the record id itself
is the compliance id; otherwise the first truthy id extracted from
`matched_compliances`; falsy outcomes resolve to nothing. -/
def resolveCompId (t : String) (rid : Int) (matched : List Int) : Option Int :=
  let c0 : Int := if t == "compliances" && rid != 0 then rid else 0
  let c1 : Int := if c0 = 0 then ((matched.find? (fun c => c != 0)).getD 0) else c0
  if c1 ≠ 0 then some c1 else none

/-- The compliance mapping lookup (`WHERE c.ComplianceId = %s`). -/
def lookupCompliance (comps : List ComplianceRow) (cid : Int) : Option ComplianceRow :=
  comps.find? (fun c => c.complianceId == cid)

/-- Resolution of the primary mapping row for one database analysis. -/
def resolvedComp (comps : List ComplianceRow) (t : String) (e : DbIndexEntry) :
    Option ComplianceRow :=
  (resolveCompId t e.record_id e.analysis.matched_compliances).bind
    (lookupCompliance comps)

/-- `f"{table_name}:{record_id}"`, the `external_id` of database evidence. -/
def dbEntryKey (t : String) (e : DbIndexEntry) : String :=
  t ++ ":" ++ toString e.record_id

/-- The existing-evidence test
`audit_id = %s AND external_source = 'database_record' AND external_id = %s`. -/
def evKeyPred (auditId : Int) (extId : String) (r : EvidenceRow) : Bool :=
  r.audit_id == auditId && r.external_source == "database_record" && r.external_id == extId

/-- The update branch on an existing database-evidence row (s3.py lines
2096-2136): backfill the policy/subpolicy mapping when either is missing,
always rewrite the document name, and set `compliance_analyses` only when
it was empty. -/
def updRow (comp : ComplianceRow) (docName : String) (snap : AnalysisSnapshot)
    (r : EvidenceRow) : EvidenceRow :=
  let mappingMissing := !(truthyOpt r.policy_id) || !(truthyOpt r.subpolicy_id)
  { r with
    policy_id := if mappingMissing then comp.policyId else r.policy_id
    subpolicy_id := if mappingMissing then comp.subPolicyId else r.subpolicy_id
    document_name := docName
    compliance_analyses :=
      if r.compliance_analyses.isNone then some snap else r.compliance_analyses }

/-- The checklist-matching test
`ComplianceId = %s AND FrameworkId = %s AND PolicyId = %s AND SubPolicyId = %s`
with `primary_policy_id or 0` / `primary_subpolicy_id or 0` as parameters. -/
def clKeyPred (cid fid pid spid : Int) (c : ChecklistRow) : Bool :=
  c.complianceId == cid && c.frameworkId == fid && c.policyId == pid && c.subPolicyId == spid

/-- The checklist upsert for a high-confidence database verdict (s3.py
lines 2211-2279): update every matching row (increment `Count`, refresh
`Complied`/`Comments`), or insert a fresh row with `Count = 1`. -/
def upsertChecklist (cid fid pid spid : Int) (comments : String)
    (cl : List ChecklistRow) : List ChecklistRow :=
  if cl.any (clKeyPred cid fid pid spid) then
    cl.map (fun c =>
      if clKeyPred cid fid pid spid c then
        { c with complied := "1", comments := comments, count := c.count + 1 }
      else c)
  else cl ++ [⟨cid, spid, pid, fid, "1", comments, 1⟩]

/-- The evidence threshold of `_create_ai_evidence_from_database_results`. -/
def evidenceThreshold : ℚ := 6/10

/-- The checklist threshold of the same function. -/
def checklistThreshold : ℚ := 8/10

/-- Processing of one analyzed database record inside
`_create_ai_evidence_from_database_results` (s3.py lines 1970-2287):
skip low scores and unresolved records, skip (keeping the verdict only in
the JSON index) when no concrete compliance mapping resolves, update an
existing evidence row in place, else insert a fresh completed
`database_record` row and, for checklist-threshold scores, upsert the
checklist ledger (the checklist code is reached only on the insert
path). -/
def processDbAnalysis (comps : List ComplianceRow) (frameworkId auditId : Int)
    (t : String) (e : DbIndexEntry) (st : DbState) : DbState :=
  let score := e.analysis.relevance_score
  let rid := e.record_id
  if rid = 0 ∨ score < evidenceThreshold then st
  else
    match resolvedComp comps t e with
    | none => st
    | some comp =>
      let extId := dbEntryKey t e
      let docName := "Evidence " ++ toString rid
      let reason := e.analysis.relevance_reason.take 500
      let snap : AnalysisSnapshot := ⟨t, rid, comp.complianceId, score, reason⟩
      match st.evidence.find? (evKeyPred auditId extId) with
      | some _ =>
        { st with evidence := updateFirst (evKeyPred auditId extId) (updRow comp docName snap) st.evidence }
      | none =>
        let newRow : EvidenceRow :=
          { rowId := st.nextId
            audit_id := auditId
            external_source := "database_record"
            external_id := extId
            policy_id := comp.policyId
            subpolicy_id := comp.subPolicyId
            document_name := docName
            document_type := "db_record"
            ai_processing_status := "completed"
            compliance_analyses := some snap
            frameworkId := some frameworkId }
        let st1 : DbState :=
          { st with evidence := st.evidence ++ [newRow], nextId := st.nextId + 1 }
        if checklistThreshold ≤ score then
          let comments := "Auto evidence from " ++ t ++ " record " ++ toString rid ++ ": " ++ reason
          let cl := upsertChecklist comp.complianceId frameworkId
            ((comp.policyId).getD 0) ((comp.subPolicyId).getD 0) comments st1.checklist
          { st1 with checklist := cl }
        else st1

/-- The inner loop of `_create_ai_evidence_from_database_results`: one
table's analyzed entries processed in order. -/
def processTableAnalyses (comps : List ComplianceRow) (frameworkId auditId : Int)
    (t : String) (entries : List DbIndexEntry) (st : DbState) : DbState :=
  entries.foldl (fun st e => processDbAnalysis comps frameworkId auditId t e st) st

/-- The table-by-table fold of `_create_ai_evidence_from_database_results`
over the full database index. -/
def createFold (comps : List ComplianceRow) (frameworkId auditId : Int)
    (dbResults : DbIndex) (st : DbState) : DbState :=
  dbResults.foldl
    (fun st p => processTableAnalyses comps frameworkId auditId p.1 p.2 st)
    st

/-- `_create_ai_evidence_from_database_results` over the full database
index (`db_results`): per-table, per-analysis processing; the whole
function is a no-op when `framework_id` is falsy. -/
def createAiEvidenceFromDbResults (comps : List ComplianceRow)
    (frameworkId auditId : Int) (dbResults : DbIndex) (st : DbState) : DbState :=
  if frameworkId = 0 then st
  else createFold comps frameworkId auditId dbResults st

/-- Python `max(scores)` over a nonempty list. -/
def pyMax : List ℚ → ℚ
  | [] => 0
  | x :: xs => xs.foldl max x

/-- All relevance scores held in a database index
(`[a.get("relevance_score", 0) for a in table_analyses]` over all
tables). -/
def dbIndexScores (idx : DbIndex) : List ℚ :=
  idx.flatMap (fun p => p.2.map (fun e => e.analysis.relevance_score))

/-- `max(docs_index["documents"], key=relevance_score, default=None)`:
Python `max` keeps the first element of maximal key. -/
def bestDocEntry (idx : List DocIndexEntry) : Option DocIndexEntry :=
  idx.foldl
    (fun acc d =>
      match acc with
      | none => some d
      | some b => if d.analysis.relevance_score > b.analysis.relevance_score then some d else some b)
    none

/-- The four evidence classifications of the trigger branch
(s3.py lines 1879-1939). -/
inductive Classification where
  | combined
  | documentOnly
  | databaseOnly
  | noEvidence
deriving Repr, DecidableEq

/-- The classification branch: decided purely by which evidence kinds
have at least one analyzed entry (`len(all_doc_scores) > 0` /
`len(all_db_scores) > 0`), not by threshold clearance. -/
def classify (hasDoc hasDb : Bool) : Classification :=
  if hasDoc && hasDb then .combined
  else if hasDoc then .documentOnly
  else if hasDb then .databaseOnly
  else .noEvidence

/-- One dispatched verification task: the thread spawned on
`_auto_process_relevant_document(best_doc["operation_id"], audit_id, ...)`
with the flag recording whether it was fired from the combined-evidence
branch. -/
structure Dispatch where
  operationId : Int
  combinedEvidence : Bool
deriving Repr, DecidableEq

/-- Everything one audit iteration of `_analyze_audit_relevance_background`
produces (s3.py lines 1714-1939): the updated indexes, the relational
state after database-evidence synthesis, the aggregate signal, and the
analysis calls that were actually made. -/
structure RunResult where
  docsIndex : List DocIndexEntry
  dbIndex : DbIndex
  state : DbState
  overall_score : ℚ
  classification : Classification
  dispatches : List Dispatch
  analyzedDocs : List Int
  analyzedDb : List (String × Int)
deriving Repr, DecidableEq

/-- One iteration of the document loop: skip already-analyzed documents
(the skip sets coming from the run's index snapshot `idx0`), otherwise
call the analyzer and upsert a parsed verdict. -/
def docPhaseStep (analyzer : DocRow → Option Analysis) (idx0 : List DocIndexEntry)
    (acc : List DocIndexEntry × List Int) (doc : DocRow) :
    List DocIndexEntry × List Int :=
  if docAlreadyAnalyzed idx0 doc then acc
  else
    match analyzer doc with
    | some res =>
      (updateJsonIndexDocument acc.1 doc.id res doc.s3_key doc.stored_name, acc.2 ++ [doc.id])
    | none => (acc.1, acc.2 ++ [doc.id])

/-- The document loop (s3.py lines 1744-1789): the skip sets are built
once from the index as loaded at the start of the run; every non-skipped
document is sent to the analyzer, and a parsed verdict is upserted into
the documents index. -/
def runDocPhase (analyzer : DocRow → Option Analysis)
    (idx0 : List DocIndexEntry) (docs : List DocRow) :
    List DocIndexEntry × List Int :=
  docs.foldl (docPhaseStep analyzer idx0) (idx0, [])

/-- One audit iteration of `_analyze_audit_relevance_background`
(s3.py lines 1714-1939): analyze new documents against the loaded index,
analyze only database records absent from the database index, upsert both
indexes, synthesize database evidence from the full (reloaded) database
index, aggregate, and dispatch.  `docAnalyzer` stands for
`_analyze_document_audit_relevance` (including its internal framework
filtering) and `dbAnalyzer` for one record's reasoning-service round trip
in `_analyze_database_data_relevance`.  The aggregate reads the document
scores from the index snapshot bound before the document loop (the
in-memory `docs_index` is never reloaded), while the database scores come
from the reloaded index. -/
def runAudit (docAnalyzer : DocRow → Option Analysis)
    (dbAnalyzer : String → DbRecord → Option Analysis)
    (comps : List ComplianceRow) (frameworkId auditId : Int)
    (docs : List DocRow) (dbData : List (String × List DbRecord))
    (docsIdx0 : List DocIndexEntry) (dbIdx0 : DbIndex) (st0 : DbState) :
    RunResult :=
  let docPhase := runDocPhase docAnalyzer docsIdx0 docs
  let incremental := dbData.map (fun p => (p.1, newRecords dbIdx0 p.1 p.2))
  let dbResults := incremental.map (fun p => (p.1, analyzeDbTable dbAnalyzer p.1 p.2))
  let dbIdx1 := applyDbResults dbIdx0 dbResults
  let st1 := createAiEvidenceFromDbResults comps frameworkId auditId dbIdx1 st0
  let allDocScores := docsIdx0.map (fun d => d.analysis.relevance_score)
  let allDbScores := dbIndexScores dbIdx1
  let allScores := allDocScores ++ allDbScores
  let overall := if allScores.isEmpty then 0 else pyMax allScores
  let hasDoc := !allDocScores.isEmpty
  let hasDb := !allDbScores.isEmpty
  let bestDoc := bestDocEntry docsIdx0
  let dispatches : List Dispatch :=
    if evidenceThreshold ≤ overall then
      match classify hasDoc hasDb, bestDoc with
      | .combined, some b => [⟨b.operation_id, true⟩]
      | .documentOnly, some b => [⟨b.operation_id, false⟩]
      | _, _ => []
    else []
  { docsIndex := docPhase.1
    dbIndex := dbIdx1
    state := st1
    overall_score := overall
    classification := classify hasDoc hasDb
    dispatches := dispatches
    analyzedDocs := docPhase.2
    analyzedDb := incremental.flatMap (fun p => (p.2.take 50).map (fun r => (p.1, r.record_id.getD 0))) }

/-- One row of the `audit` table as read by `_get_active_ai_audits`
(status is nullable). -/
structure AuditRow where
  auditId : Int
  frameworkId : Int
  status : Option String
deriving Repr, DecidableEq

/-- The WHERE clause of `_get_active_ai_audits` (s3.py lines 2305-2342):
`FrameworkId = %s AND (Status != 'Completed' OR Status IS NULL)
AND AuditId = 426`. -/
def activeAuditPred (fid : Int) (a : AuditRow) : Bool :=
  a.frameworkId == fid
    && (match a.status with
        | none => true
        | some s => s != "Completed")
    && a.auditId == 426

/-- `_get_active_ai_audits`: the audits of the framework surviving the
WHERE clause. -/
def getActiveAiAudits (rows : List AuditRow) (fid : Int) : List AuditRow :=
  rows.filter (activeAuditPred fid)

/-- One `file_operations` row as read by
`_auto_process_relevant_document`. -/
structure FileOp where
  id : Int
  file_name : String
  s3_key : Option String
  stored_name : Option String
  file_type : String
  status : String
deriving Repr, DecidableEq

/-- STEP 1 of `_auto_process_relevant_document` (s3.py lines 3244-3292):
from the documents JSON index keep every entry with a truthy operation id
and a nonempty `matched_compliances`. -/
def collectRelevantDocs (docsIdx : List DocIndexEntry) : List (Int × List Int) :=
  docsIdx.filterMap (fun d =>
    if !d.analysis.matched_compliances.isEmpty && d.operation_id != 0 then
      some (d.operation_id, d.analysis.matched_compliances)
    else none)

/-- STEPs 2-3 (s3.py lines 3294-3314): when nothing was collected, fall
back to the triggering document (with whatever `matched_compliances` its
relevance result carries, possibly none); ensure the triggering document
is in the list. -/
def toProcessList (docsIdx : List DocIndexEntry) (opId : Int) (res : Analysis) :
    List (Int × List Int) :=
  let l := collectRelevantDocs docsIdx
  let l := if l.isEmpty then [(opId, res.matched_compliances)] else l
  if l.any (fun p => p.1 == opId) then l else l ++ [(opId, res.matched_compliances)]

/-- The mapping triples created per document (s3.py lines 3438-3487):
one per matched compliance (its policy/subpolicy resolved by lookup, kept
even when the lookup finds nothing), and a single unmapped triple when no
compliance was matched (the subpolicy/policy fallback branches are
unreachable because those lists are derived from the matched
compliances). -/
def mappingsFor (comps : List ComplianceRow) (matched : List Int) :
    List (Option Int × Option Int × Option Int) :=
  if matched.isEmpty then [(none, none, none)]
  else
    matched.map (fun cid =>
      match lookupCompliance comps cid with
      | some c => (c.policyId, c.subPolicyId, some cid)
      | none => (none, none, some cid))

/-- One `ai_audit_data` insert of the document path (s3.py lines
3510-3566): a pending `evidence_attachment` row; the compliance id of the
mapping is not a column of the insert. -/
def insertDocEvidence (auditId frameworkId : Int) (f : FileOp) (extId : String)
    (m : Option Int × Option Int × Option Int) (st : DbState) : DbState :=
  let newRow : EvidenceRow :=
    { rowId := st.nextId
      audit_id := auditId
      external_source := "evidence_attachment"
      external_id := extId
      policy_id := m.1
      subpolicy_id := m.2.1
      document_name := f.file_name
      document_type := f.file_type.take 50
      ai_processing_status := "pending"
      compliance_analyses := none
      frameworkId := some frameworkId }
  { st with evidence := st.evidence ++ [newRow], nextId := st.nextId + 1 }

/-- Processing of one entry of the to-process list (s3.py lines
3361-3566): skip documents already processed in this batch, skip
operations without a completed `file_operations` row, skip documents that
already have non-failed `evidence_attachment` rows for this audit under
any of their identifiers, then insert one row per mapping. -/
def autoProcessStep (fileOps : List FileOp) (comps : List ComplianceRow)
    (auditId frameworkId : Int) (acc : List Int × DbState) (p : Int × List Int) :
    List Int × DbState :=
  if acc.1.contains p.1 then acc
  else
    match fileOps.find? (fun f => f.id == p.1 && f.status == "completed") with
    | none => acc
    | some f =>
      let extId := toString p.1
      let compact0 := (f.s3_key.getD (f.stored_name.getD extId))
      let compact :=
        if compact0.length > 100 then compact0.drop (compact0.length - 100) else compact0
      let storedOrEmpty := f.stored_name.getD ""
      let dup := acc.2.evidence.countP (fun r =>
        r.audit_id == auditId && r.external_source == "evidence_attachment"
          && (r.external_id == extId || r.external_id == compact || r.external_id == storedOrEmpty)
          && r.ai_processing_status != "failed")
      if dup > 0 then (acc.1 ++ [p.1], acc.2)
      else
        let st := (mappingsFor comps p.2).foldl
          (fun st m => insertDocEvidence auditId frameworkId f extId m st) acc.2
        (acc.1 ++ [p.1], st)

/-- `_auto_process_relevant_document` up to and including the
`ai_audit_data` inserts (s3.py lines 3207-3566); the notification and
compliance-check tail that follows does not touch the rows modelled
here. -/
def autoProcessRelevantDocument (docsIdx : List DocIndexEntry) (opId : Int)
    (res : Analysis) (auditId frameworkId : Int) (fileOps : List FileOp)
    (comps : List ComplianceRow) (st : DbState) : DbState :=
  ((toProcessList docsIdx opId res).foldl
    (autoProcessStep fileOps comps auditId frameworkId) ([], st)).2

/-- The three outcomes one database record's analysis attempt can have in
`_analyze_database_data_relevance`: a parsed verdict, a absorbed failure
(no text or nothing parseable, the record is skipped), or a raised
exception (the per-record handler at s3.py lines 1664-1670 re-raises). -/
inductive AnalyzeOutcome where
  | ok (a : Analysis)
  | noResult
  | raised
deriving Repr, DecidableEq

/-- One step of the per-table record loop: a previous exception
propagates, an `ok` verdict is collected, a `noResult` is skipped, and a
`raised` exception turns the loop into the error state. -/
def dbLoopStep (f : DbRecord → AnalyzeOutcome)
    (acc : Except Unit (List DbAnalysis)) (r : DbRecord) :
    Except Unit (List DbAnalysis) :=
  match acc with
  | .error e => .error e
  | .ok l =>
    match f r with
    | .ok a => .ok (l ++ [⟨r.record_id.getD 0, a⟩])
    | .noResult => .ok l
    | .raised => .error ()

/-- The per-table record loop with its error semantics (s3.py lines
1566-1670): records are processed in order (first 50); an `ok` verdict is
collected, a `noResult` is skipped, and a `raised` exception aborts the
loop immediately, discarding the remaining records. -/
def analyzeDbTableE (f : DbRecord → AnalyzeOutcome) (records : List DbRecord) :
    Except Unit (List DbAnalysis) :=
  (records.take 50).foldl (dbLoopStep f) (.ok [])

/-- The background trigger fired by `_save_json_index` (s3.py lines
2595-2648): whenever the saved payload carries truthy `audit_id` and
`framework_id`, every `ai_audit_data` row of that audit that is not
database-record evidence and not failed is marked `pending`. -/
def triggerReprocessing (auditId : Int) (rows : List EvidenceRow) : List EvidenceRow :=
  rows.map (fun r =>
    if r.audit_id == auditId && r.external_source != "database_record"
        && r.document_type != "db_record" && r.ai_processing_status != "failed" then
      { r with ai_processing_status := "pending" }
    else r)

/-- `_save_json_index` restricted to its relational side effect: the file
write itself is outside the relational state; the re-processing trigger
runs exactly when both ids are truthy. -/
def saveJsonIndexSideEffect (auditId frameworkId : Int) (rows : List EvidenceRow) :
    List EvidenceRow :=
  if auditId ≠ 0 ∧ frameworkId ≠ 0 then triggerReprocessing auditId rows else rows

/-- Two documents that are genuinely different pieces of evidence: all
three identifiers differ. -/
def DisjointDoc (a b : DocRow) : Prop :=
  a.id ≠ b.id ∧ a.s3_key ≠ b.s3_key ∧ a.stored_name ≠ b.stored_name

/-- The index entry a document's fresh analysis produces. -/
def docEntryOf (d : DocRow) (a : Analysis) : DocIndexEntry :=
  ⟨d.id, d.s3_key, d.stored_name, a⟩

/-- Every evidence identity (`table:record`) held in a database index. -/
def allDbKeys (idx : DbIndex) : List String :=
  idx.flatMap (fun p => p.2.map (dbEntryKey p.1))

/-- The verdict an analysis outcome contributes (`raised` never
contributes: it aborts). -/
def okOf : AnalyzeOutcome → Option Analysis
  | .ok a => some a
  | _ => none

/-- The filtering invariant of §3/§8 of the spec: every matched id of a
verdict belongs to the audit context's corresponding id set. -/
def matchedSubsets (details : AuditDetails) (a : Analysis) : Prop :=
  a.matched_policies ⊆ details.policy_ids
    ∧ a.matched_subpolicies ⊆ details.subpolicy_ids
    ∧ a.matched_compliances ⊆ details.compliance_ids

/-- The fixed point predicate of database-evidence synthesis: a database
index entry is stable in a relational state when re-processing it would
change nothing (the relevant evidence row exists and is saturated). -/
def Stable (comps : List ComplianceRow) (auditId : Int) (t : String)
    (e : DbIndexEntry) (st : DbState) : Prop :=
  if e.record_id = 0 ∨ e.analysis.relevance_score < evidenceThreshold then True
  else
    match resolvedComp comps t e with
    | none => True
    | some comp =>
      ∃ r, st.evidence.find? (evKeyPred auditId (dbEntryKey t e)) = some r ∧
        updRow comp ("Evidence " ++ toString e.record_id)
          ⟨t, e.record_id, comp.complianceId, e.analysis.relevance_score,
            e.analysis.relevance_reason.take 500⟩ r = r

/-! ### Generic lemmas about the list-upsert primitives -/

theorem length_updateFirst (p : α → Bool) (f : α → α) (l : List α) :
    (updateFirst p f l).length = l.length := by
  induction l with
  | nil => rfl
  | cons x xs ih =>
    simp only [updateFirst]
    by_cases h : p x <;> simp [h, ih]

theorem mem_updateFirst {p : α → Bool} {f : α → α} {l : List α} {x : α}
    (hx : x ∈ updateFirst p f l) : x ∈ l ∨ ∃ y ∈ l, p y ∧ x = f y := by
  induction l with
  | nil => simp [updateFirst] at hx
  | cons y ys ih =>
    simp only [updateFirst] at hx
    by_cases h : p y
    · simp only [h, if_pos] at hx
      rcases List.mem_cons.mp hx with h1 | h1
      · exact Or.inr ⟨y, List.mem_cons_self _ _, h, h1⟩
      · exact Or.inl (List.mem_cons_of_mem _ h1)
    · simp only [h, if_neg, Bool.false_eq_true, not_false_iff] at hx
      rcases List.mem_cons.mp hx with h1 | h1
      · exact Or.inl (h1 ▸ List.mem_cons_self _ _)
      · rcases ih h1 with h2 | ⟨z, hz, hpz, hxz⟩
        · exact Or.inl (List.mem_cons_of_mem _ h2)
        · exact Or.inr ⟨z, List.mem_cons_of_mem _ hz, hpz, hxz⟩

theorem mem_updateFirst_of_pred_false {p : α → Bool} {f : α → α} {l : List α} {x : α}
    (hx : x ∈ l) (hp : p x = false) : x ∈ updateFirst p f l := by
  induction l with
  | nil => simp at hx
  | cons y ys ih =>
    simp only [updateFirst]
    by_cases h : p y
    · simp only [h, if_pos]
      rcases List.mem_cons.mp hx with h1 | h1
      · rw [h1] at hp; rw [hp] at h; exact absurd h (by simp)
      · exact List.mem_cons_of_mem _ h1
    · simp only [h, if_neg, Bool.false_eq_true, not_false_iff]
      rcases List.mem_cons.mp hx with h1 | h1
      · exact h1 ▸ List.mem_cons_self _ _
      · exact List.mem_cons_of_mem _ (ih h1)

theorem updateFirst_eq_self {p : α → Bool} {f : α → α} {l : List α} {r : α}
    (hfind : l.find? p = some r) (hfix : f r = r) : updateFirst p f l = l := by
  induction l with
  | nil => simp at hfind
  | cons y ys ih =>
    simp only [updateFirst]
    by_cases h : p y
    · rw [List.find?_cons_of_pos _ h] at hfind
      obtain rfl : y = r := by injection hfind
      simp [h, hfix]
    · rw [List.find?_cons_of_neg _ h] at hfind
      simp [h, ih hfind]

theorem find?_updateFirst {p : α → Bool} {f : α → α} {l : List α}
    (hpf : ∀ x, p (f x) = p x) :
    (updateFirst p f l).find? p = (l.find? p).map f := by
  induction l with
  | nil => simp [updateFirst]
  | cons y ys ih =>
    simp only [updateFirst]
    by_cases h : p y
    · rw [if_pos h, List.find?_cons_of_pos _ (by rw [hpf]; exact h),
        List.find?_cons_of_pos _ h]
      rfl
    · rw [if_neg (by simp [h]), List.find?_cons_of_neg _ h, List.find?_cons_of_neg _ h]
      exact ih

theorem find?_updateFirst_disjoint {p q : α → Bool} {f : α → α} {l : List α}
    (hdis : ∀ x, p x = true → q x = false) (hf : ∀ x, q (f x) = q x) :
    (updateFirst p f l).find? q = l.find? q := by
  induction l with
  | nil => simp [updateFirst]
  | cons y ys ih =>
    simp only [updateFirst]
    by_cases h : p y
    · rw [if_pos h, List.find?_cons_of_neg _ (by rw [hf]; simp [hdis y h]),
        List.find?_cons_of_neg _ (by simp [hdis y h])]
    · rw [if_neg (by simp [h])]
      by_cases hq : q y
      · rw [List.find?_cons_of_pos _ hq, List.find?_cons_of_pos _ hq]
      · rw [List.find?_cons_of_neg _ hq, List.find?_cons_of_neg _ hq]
        exact ih

theorem self_mem_updateFirst_const {p : α → Bool} {e : α} {l : List α}
    (h : l.any p = true) : e ∈ updateFirst p (fun _ => e) l := by
  induction l with
  | nil => simp at h
  | cons y ys ih =>
    simp only [updateFirst]
    by_cases hy : p y
    · simp [hy]
    · simp only [hy, if_neg, Bool.false_eq_true, not_false_iff]
      simp only [List.any_cons, hy, Bool.false_or] at h
      exact List.mem_cons_of_mem _ (ih h)

/-! ### Lemmas about Python `max` -/

theorem le_foldl_max (xs : List ℚ) : ∀ acc : ℚ,
    acc ≤ xs.foldl max acc ∧ ∀ s ∈ xs, s ≤ xs.foldl max acc := by
  induction xs with
  | nil => intro acc; simp
  | cons x xs ih =>
    intro acc
    constructor
    · calc acc ≤ max acc x := le_max_left _ _
        _ ≤ xs.foldl max (max acc x) := (ih (max acc x)).1
    · intro s hs
      rcases List.mem_cons.mp hs with rfl | hs
      · calc s ≤ max acc s := le_max_right _ _
          _ ≤ xs.foldl max (max acc s) := (ih _).1
      · exact (ih (max acc x)).2 s hs

theorem le_pyMax {l : List ℚ} {s : ℚ} (hs : s ∈ l) : s ≤ pyMax l := by
  cases l with
  | nil => simp at hs
  | cons x xs =>
    rcases List.mem_cons.mp hs with rfl | hs
    · exact (le_foldl_max xs s).1
    · exact (le_foldl_max xs x).2 s hs

theorem foldl_max_mem (xs : List ℚ) : ∀ acc : ℚ,
    xs.foldl max acc = acc ∨ xs.foldl max acc ∈ xs := by
  induction xs with
  | nil => intro acc; exact Or.inl rfl
  | cons x xs ih =>
    intro acc
    rcases ih (max acc x) with h | h
    · rcases max_choice acc x with hm | hm
      · exact Or.inl (by simpa [hm] using h)
      · refine Or.inr ?_
        rw [List.foldl_cons, h, hm]
        exact List.mem_cons_self _ _
    · exact Or.inr (List.mem_cons_of_mem _ (by simpa using h))

theorem pyMax_mem {l : List ℚ} (h : l ≠ []) : pyMax l ∈ l := by
  cases l with
  | nil => exact absurd rfl h
  | cons x xs =>
    rcases foldl_max_mem xs x with h1 | h1
    · simp only [pyMax, h1]; exact List.mem_cons_self _ _
    · exact List.mem_cons_of_mem _ h1

/-! ### C3: active-audit enumeration -/

/-- C3: for every framework id, `_get_active_ai_audits` returns only the
audit with `AuditId = 426` (when it is in the framework and not
completed); every other audit of the framework is excluded regardless of
status, so (audit ids being unique) at most one audit per framework is
ever enumerated for correlation. -/
theorem getActiveAiAudits_only_426 (rows : List AuditRow) (fid : Int)
    (hids : (rows.map AuditRow.auditId).Nodup) :
    (∀ a ∈ getActiveAiAudits rows fid,
        a.auditId = 426 ∧ a.frameworkId = fid ∧ a.status ≠ some "Completed")
    ∧ (∀ a ∈ rows, a.auditId ≠ 426 → a ∉ getActiveAiAudits rows fid)
    ∧ (getActiveAiAudits rows fid).length ≤ 1 := by
  have hmem : ∀ a ∈ getActiveAiAudits rows fid,
      a.auditId = 426 ∧ a.frameworkId = fid ∧ a.status ≠ some "Completed" := by
    intro a ha
    rw [getActiveAiAudits, List.mem_filter] at ha
    obtain ⟨-, hp⟩ := ha
    unfold activeAuditPred at hp
    simp only [Bool.and_eq_true, beq_iff_eq] at hp
    refine ⟨hp.2, hp.1.1, ?_⟩
    intro hst
    have hm := hp.1.2
    rw [hst] at hm
    simp at hm
  refine ⟨hmem, ?_, ?_⟩
  · intro a _ hne hin
    exact hne (hmem a hin).1
  · cases hl : getActiveAiAudits rows fid with
    | nil => simp
    | cons a tl =>
      cases tl with
      | nil => simp
      | cons b t =>
        exfalso
        have ha := hmem a (hl ▸ List.mem_cons_self _ _)
        have hb := hmem b (hl ▸ List.mem_cons_of_mem _ (List.mem_cons_self _ _))
        have hnod : ((a :: b :: t).map AuditRow.auditId).Nodup := by
          rw [← hl]
          exact hids.sublist ((List.filter_sublist _).map _)
        simp only [List.map_cons, List.nodup_cons, List.mem_cons, List.mem_map] at hnod
        exact hnod.1 (Or.inl (ha.1.trans hb.1.symm))

/-- Witness for C3 at a concrete audit table. -/
theorem getActiveAiAudits_only_426_witness :
    (([⟨426, 1, none⟩, ⟨427, 1, some "In Progress"⟩] : List AuditRow).map AuditRow.auditId).Nodup
    ∧ (getActiveAiAudits [⟨426, 1, none⟩, ⟨427, 1, some "In Progress"⟩] 1).length ≤ 1 :=
  ⟨by decide, (getActiveAiAudits_only_426 [⟨426, 1, none⟩, ⟨427, 1, some "In Progress"⟩] 1 (by decide)).2.2⟩

/-! ### C10: the relational side effect of saving an index -/

/-- C10: every index save whose payload carries truthy audit and
framework ids marks all of that audit's non-database-record,
non-failed `ai_audit_data` rows as `pending` and leaves every other row
untouched (all other columns preserved). -/
theorem saveJsonIndex_marks_nonDb_pending (auditId frameworkId : Int)
    (rows : List EvidenceRow) (ha : auditId ≠ 0) (hf : frameworkId ≠ 0) :
    (saveJsonIndexSideEffect auditId frameworkId rows).length = rows.length
    ∧ ∀ i (h : i < rows.length)
        (h2 : i < (saveJsonIndexSideEffect auditId frameworkId rows).length),
      (((rows.get ⟨i, h⟩).audit_id = auditId
          ∧ (rows.get ⟨i, h⟩).external_source ≠ "database_record"
          ∧ (rows.get ⟨i, h⟩).document_type ≠ "db_record"
          ∧ (rows.get ⟨i, h⟩).ai_processing_status ≠ "failed") →
        (saveJsonIndexSideEffect auditId frameworkId rows).get ⟨i, h2⟩
          = { rows.get ⟨i, h⟩ with ai_processing_status := "pending" })
      ∧ (¬((rows.get ⟨i, h⟩).audit_id = auditId
          ∧ (rows.get ⟨i, h⟩).external_source ≠ "database_record"
          ∧ (rows.get ⟨i, h⟩).document_type ≠ "db_record"
          ∧ (rows.get ⟨i, h⟩).ai_processing_status ≠ "failed") →
        (saveJsonIndexSideEffect auditId frameworkId rows).get ⟨i, h2⟩ = rows.get ⟨i, h⟩) := by
  have hout : saveJsonIndexSideEffect auditId frameworkId rows = triggerReprocessing auditId rows := by
    rw [saveJsonIndexSideEffect, if_pos ⟨ha, hf⟩]
  constructor
  · rw [hout]; simp [triggerReprocessing]
  · intro i h h2
    set r := rows.get ⟨i, h⟩ with hr
    have hget : (saveJsonIndexSideEffect auditId frameworkId rows).get ⟨i, h2⟩
        = (if r.audit_id == auditId && r.external_source != "database_record"
              && r.document_type != "db_record" && r.ai_processing_status != "failed" then
            { r with ai_processing_status := "pending" }
          else r) := by
      revert h2
      rw [hout, triggerReprocessing]
      intro h2
      rw [List.get_map]
    rw [hget]
    by_cases hb : (r.audit_id == auditId && r.external_source != "database_record"
        && r.document_type != "db_record" && r.ai_processing_status != "failed") = true
    · rw [if_pos hb]
      simp only [Bool.and_eq_true, beq_iff_eq, bne_iff_ne] at hb
      exact ⟨fun _ => rfl, fun hnc => absurd ⟨hb.1.1.1, hb.1.1.2, hb.1.2, hb.2⟩ hnc⟩
    · rw [if_neg hb]
      refine ⟨fun hc => ?_, fun _ => rfl⟩
      exfalso
      apply hb
      simp only [Bool.and_eq_true, beq_iff_eq, bne_iff_ne]
      exact ⟨⟨⟨hc.1, hc.2.1⟩, hc.2.2.1⟩, hc.2.2.2⟩

/-- Witness for C10 at one concrete evidence row. -/
theorem saveJsonIndex_marks_nonDb_pending_witness :
    (7 : Int) ≠ 0 ∧ (2 : Int) ≠ 0
    ∧ (saveJsonIndexSideEffect 7 2
        [⟨1, 7, "evidence_attachment", "5", none, none, "d", "pdf", "uploaded", none, some 2⟩]).length
      = ([⟨1, 7, "evidence_attachment", "5", none, none, "d", "pdf", "uploaded", none, some 2⟩]
          : List EvidenceRow).length :=
  ⟨by decide, by decide,
    (saveJsonIndex_marks_nonDb_pending 7 2
      [⟨1, 7, "evidence_attachment", "5", none, none, "d", "pdf", "uploaded", none, some 2⟩]
      (by decide) (by decide)).1⟩

/-! ### C9: error containment across sibling candidates -/

/-- C9 amended: a failure the analyzer absorbs (`noResult`) skips only
that record; when no record of the batch raises, the loop completes and
collects exactly the parsed verdicts of the first fifty records. -/
theorem analyzeDbTableE_ok_of_no_raise (f : DbRecord → AnalyzeOutcome)
    (records : List DbRecord) (h : ∀ r ∈ records.take 50, f r ≠ .raised) :
    analyzeDbTableE f records
      = .ok ((records.take 50).filterMap
          (fun r => (okOf (f r)).map (fun a => (⟨r.record_id.getD 0, a⟩ : DbAnalysis)))) := by
  rw [analyzeDbTableE]
  have main : ∀ (l : List DbRecord), (∀ r ∈ l, f r ≠ .raised) → ∀ (acc : List DbAnalysis),
      l.foldl (dbLoopStep f) (Except.ok acc)
        = .ok (acc ++ l.filterMap
            (fun r => (okOf (f r)).map (fun a => (⟨r.record_id.getD 0, a⟩ : DbAnalysis)))) := by
    intro l
    induction l with
    | nil => intro _ acc; simp
    | cons r l ih =>
      intro hl acc
      have hr := hl r (List.mem_cons_self _ _)
      have hrest : ∀ x ∈ l, f x ≠ .raised := fun x hx => hl x (List.mem_cons_of_mem _ hx)
      simp only [List.foldl_cons, List.filterMap_cons]
      cases hfr : f r with
      | ok a =>
        rw [show dbLoopStep f (Except.ok acc) r = .ok (acc ++ [⟨r.record_id.getD 0, a⟩]) by
          simp [dbLoopStep, hfr]]
        rw [ih hrest]
        simp [okOf, hfr]
      | noResult =>
        rw [show dbLoopStep f (Except.ok acc) r = .ok acc by simp [dbLoopStep, hfr]]
        rw [ih hrest]
        simp [okOf, hfr]
      | raised => exact absurd hfr hr
  exact main _ h []

/-- Counterexample to C9 as stated: a raised failure on the first record
aborts the loop, so the second record — which would analyze fine on its
own — is never analyzed. -/
theorem analyzeDbTableE_abort_counterexample :
    let f : DbRecord → AnalyzeOutcome :=
      fun r => if r.payload == "boom" then .raised else .ok ⟨7/10, "ok", [], [], []⟩
    analyzeDbTableE f [⟨some 1, "boom"⟩, ⟨some 2, "fine"⟩] = .error ()
    ∧ f ⟨some 2, "fine"⟩ = .ok ⟨7/10, "ok", [], [], []⟩
    ∧ analyzeDbTableE f [⟨some 2, "fine"⟩] = .ok [⟨2, ⟨7/10, "ok", [], [], []⟩⟩] :=
  ⟨rfl, rfl, rfl⟩

/-- Witness for C9 amended at a concrete batch with one absorbed
failure. -/
theorem analyzeDbTableE_ok_of_no_raise_witness :
    analyzeDbTableE
        (fun r => if r.payload == "skip" then .noResult else .ok ⟨1/2, "", [], [], []⟩)
        [⟨some 1, "skip"⟩, ⟨some 2, "fine"⟩]
      = .ok (([⟨some 1, "skip"⟩, ⟨some 2, "fine"⟩] : List DbRecord).take 50 |>.filterMap
          (fun r => (okOf (if r.payload == "skip" then .noResult else .ok ⟨1/2, "", [], [], []⟩)).map
            (fun a => (⟨r.record_id.getD 0, a⟩ : DbAnalysis)))) :=
  analyzeDbTableE_ok_of_no_raise _ _ (by decide)

/-! ### C7: inclusive thresholds of database-evidence synthesis -/

/-- C7 amended: on the database-record synthesis path, with a resolvable
compliance mapping and no pre-existing row, an evidence row is created
exactly when `score ≥ 0.6` (inclusive), and the checklist ledger gains
its entry exactly when `score ≥ 0.8` (inclusive); below either bound
nothing of the corresponding kind happens.  (The document path is not
score-gated, see the counterexample.) -/
theorem processDbAnalysis_thresholds (comps : List ComplianceRow) (fid aid : Int)
    (t : String) (e : DbIndexEntry) (st : DbState) (comp : ComplianceRow)
    (hrid : e.record_id ≠ 0)
    (hcomp : resolvedComp comps t e = some comp)
    (hnoEv : st.evidence.find? (evKeyPred aid (dbEntryKey t e)) = none)
    (hnoCl : st.checklist.any
        (clKeyPred comp.complianceId fid ((comp.policyId).getD 0) ((comp.subPolicyId).getD 0))
      = false) :
    ((evidenceThreshold ≤ e.analysis.relevance_score →
        (processDbAnalysis comps fid aid t e st).evidence.length = st.evidence.length + 1)
      ∧ (e.analysis.relevance_score < evidenceThreshold →
        processDbAnalysis comps fid aid t e st = st))
    ∧ ((checklistThreshold ≤ e.analysis.relevance_score →
        (processDbAnalysis comps fid aid t e st).checklist.length = st.checklist.length + 1)
      ∧ (e.analysis.relevance_score < checklistThreshold →
        (processDbAnalysis comps fid aid t e st).checklist = st.checklist)) := by
  have hthr : evidenceThreshold ≤ checklistThreshold := by
    norm_num [evidenceThreshold, checklistThreshold]
  by_cases hlow : e.analysis.relevance_score < evidenceThreshold
  · have hskip : processDbAnalysis comps fid aid t e st = st := by
      simp only [processDbAnalysis]
      rw [if_pos (Or.inr hlow)]
    refine ⟨⟨fun hge => absurd hge (not_le.mpr hlow), fun _ => hskip⟩,
      ⟨fun hge => absurd (hthr.trans hge) (not_le.mpr hlow), fun _ => by rw [hskip]⟩⟩
  · have hge : evidenceThreshold ≤ e.analysis.relevance_score := not_lt.mp hlow
    have hcond : ¬(e.record_id = 0 ∨ e.analysis.relevance_score < evidenceThreshold) := by
      push_neg
      exact ⟨hrid, not_lt.mp hlow⟩
    by_cases hcl : checklistThreshold ≤ e.analysis.relevance_score
    · have hout : processDbAnalysis comps fid aid t e st =
          { evidence := st.evidence ++
              [{ rowId := st.nextId, audit_id := aid, external_source := "database_record",
                 external_id := dbEntryKey t e, policy_id := comp.policyId,
                 subpolicy_id := comp.subPolicyId,
                 document_name := "Evidence " ++ toString e.record_id,
                 document_type := "db_record", ai_processing_status := "completed",
                 compliance_analyses := some ⟨t, e.record_id, comp.complianceId,
                   e.analysis.relevance_score, e.analysis.relevance_reason.take 500⟩,
                 frameworkId := some fid }],
            checklist := st.checklist ++
              [⟨comp.complianceId, (comp.subPolicyId).getD 0, (comp.policyId).getD 0, fid, "1",
                "Auto evidence from " ++ t ++ " record " ++ toString e.record_id ++ ": "
                  ++ e.analysis.relevance_reason.take 500, 1⟩],
            nextId := st.nextId + 1 } := by
        simp only [processDbAnalysis]
        rw [if_neg hcond, hcomp]
        simp only [hnoEv]
        rw [if_pos hcl]
        simp [upsertChecklist, hnoCl]
      rw [hout]
      refine ⟨⟨fun _ => by simp, fun hlt => absurd hge (not_le.mpr hlt)⟩,
        ⟨fun _ => by simp, fun hlt => absurd hcl (not_le.mpr hlt)⟩⟩
    · have hout : processDbAnalysis comps fid aid t e st =
          { evidence := st.evidence ++
              [{ rowId := st.nextId, audit_id := aid, external_source := "database_record",
                 external_id := dbEntryKey t e, policy_id := comp.policyId,
                 subpolicy_id := comp.subPolicyId,
                 document_name := "Evidence " ++ toString e.record_id,
                 document_type := "db_record", ai_processing_status := "completed",
                 compliance_analyses := some ⟨t, e.record_id, comp.complianceId,
                   e.analysis.relevance_score, e.analysis.relevance_reason.take 500⟩,
                 frameworkId := some fid }],
            checklist := st.checklist,
            nextId := st.nextId + 1 } := by
        simp only [processDbAnalysis]
        rw [if_neg hcond, hcomp]
        simp only [hnoEv]
        rw [if_neg hcl]
      rw [hout]
      exact ⟨⟨fun _ => by simp, fun hlt => absurd hge (not_le.mpr hlt)⟩,
        ⟨fun hge2 => absurd hge2 hcl, fun _ => rfl⟩⟩

/-- Witness for C7: a verdict scoring exactly `0.6` on a mappable record
inserts exactly one evidence row. -/
theorem processDbAnalysis_thresholds_witness :
    resolvedComp [⟨42, some 2, some 1⟩] "incidents" ⟨"incidents", 5, ⟨3/5, "r", [], [], [42]⟩⟩
      = some ⟨42, some 2, some 1⟩
    ∧ (processDbAnalysis [⟨42, some 2, some 1⟩] 1 7 "incidents"
        ⟨"incidents", 5, ⟨3/5, "r", [], [], [42]⟩⟩ ⟨[], [], 1⟩).evidence.length
      = ([] : List EvidenceRow).length + 1 :=
  ⟨by decide,
    (processDbAnalysis_thresholds [⟨42, some 2, some 1⟩] 1 7 "incidents"
      ⟨"incidents", 5, ⟨3/5, "r", [], [], [42]⟩⟩ ⟨[], [], 1⟩ ⟨42, some 2, some 1⟩
      (by decide) (by decide) (by decide) (by decide)).1.1 (by norm_num [evidenceThreshold])⟩

/-- Counterexample to C7 as stated: on the document path record creation
is not score-gated — a document verdict scoring strictly below the 0.6
evidence threshold but carrying a matched compliance still produces an
`ai_audit_data` evidence row once `_auto_process_relevant_document`
runs, because the to-process list is built from matched compliances
alone with no score check. -/
theorem autoProcess_low_score_creates_record_counterexample :
    let entry : DocIndexEntry := ⟨5, some "k", some "s", ⟨59999/100000, "", [], [], [42]⟩⟩
    let out := autoProcessRelevantDocument [entry] 5 entry.analysis 426 1
      [⟨5, "d.pdf", some "k", some "s", "pdf", "completed"⟩] [⟨42, some 2, some 1⟩]
      ⟨[], [], 1⟩
    entry.analysis.relevance_score < evidenceThreshold
    ∧ out.evidence.map (fun r =>
        (r.audit_id, r.external_source, r.external_id, r.policy_id, r.subpolicy_id,
          r.ai_processing_status))
      = [(426, "evidence_attachment", "5", some 1, some 2, "pending")] :=
  ⟨by norm_num [evidenceThreshold], by decide⟩

/-! ### C2: unmapped verdicts and evidence records -/

/-- C2 amended: a database-record verdict from a table other than
`compliances` with an empty `matched_compliances` never creates an
evidence row, whatever its score (the verdict stays relevance-only). -/
theorem processDbAnalysis_empty_matches_noop (comps : List ComplianceRow)
    (fid aid : Int) (t : String) (e : DbIndexEntry) (st : DbState)
    (ht : t ≠ "compliances") (hm : e.analysis.matched_compliances = []) :
    processDbAnalysis comps fid aid t e st = st := by
  simp only [processDbAnalysis]
  by_cases h : e.record_id = 0 ∨ e.analysis.relevance_score < evidenceThreshold
  · rw [if_pos h]
  · rw [if_neg h]
    have hres : resolvedComp comps t e = none := by
      rw [resolvedComp, resolveCompId]
      have ht' : (t == "compliances") = false := by
        simp only [beq_eq_false_iff_ne, ne_eq]
        exact ht
      rw [hm]
      simp [ht']
    rw [hres]

/-- Witness for C2 amended: a score-0.9 verdict with no matched
compliances leaves the relational state untouched. -/
theorem processDbAnalysis_empty_matches_noop_witness :
    ("incidents" : String) ≠ "compliances"
    ∧ processDbAnalysis [] 1 7 "incidents" ⟨"incidents", 5, ⟨9/10, "r", [], [], []⟩⟩ ⟨[], [], 1⟩
      = ⟨[], [], 1⟩ :=
  ⟨by decide,
    processDbAnalysis_empty_matches_noop [] 1 7 "incidents"
      ⟨"incidents", 5, ⟨9/10, "r", [], [], []⟩⟩ ⟨[], [], 1⟩ (by decide) rfl⟩

/-- Counterexample to C2 as stated: on the document path, the triggering
document with score 0.9 and an empty `matched_compliances` still gets one
(unmapped) `ai_audit_data` evidence row inserted by
`_auto_process_relevant_document`. -/
theorem autoProcess_unmapped_creates_record_counterexample :
    let res : Analysis := ⟨9/10, "relevant", [], [], []⟩
    let out := autoProcessRelevantDocument [] 11 res 426 1
      [⟨11, "doc.pdf", some "k1", some "s1", "pdf", "completed"⟩] [] ⟨[], [], 1⟩
    res.relevance_score = 9/10 ∧ res.matched_compliances = []
    ∧ out.evidence.map (fun r =>
        (r.audit_id, r.external_source, r.external_id, r.policy_id, r.subpolicy_id,
          r.ai_processing_status))
      = [(426, "evidence_attachment", "11", none, none, "pending")] :=
  ⟨rfl, rfl, by decide⟩

/-! ### C1: the id-filtering invariant of stored verdicts -/

/-- Counterexample to C1 as stated: the database path stores a verdict
whose `matched_compliances` contains an id foreign to the framework —
`_analyze_database_data_relevance` applies no id filtering before
`_update_json_index_database` persists the entry. -/
theorem dbStore_foreign_ids_counterexample :
    let foreign : Analysis := ⟨9/10, "r", [], [], [9999]⟩
    let details : AuditDetails := ⟨[1], [2], [42]⟩
    let r := runAudit (fun _ => none) (fun _ _ => some foreign) [] 1 7 []
        [("incidents", [⟨some 5, "row"⟩])] [] [] ⟨[], [], 1⟩
    r.dbIndex = [("incidents", [⟨"incidents", 5, foreign⟩])]
    ∧ ¬ matchedSubsets details foreign := by
  refine ⟨rfl, ?_⟩
  intro h
  have := h.2.2 (List.mem_singleton.mpr rfl)
  simp at this

/-- A document-index upsert only ever adds the upserted entry: every
member of the result was already present or is the new entry. -/
theorem mem_updateJsonIndexDocument {idx : List DocIndexEntry} {op : Int}
    {res : Analysis} {s3 stored : Option String} {d : DocIndexEntry}
    (hd : d ∈ updateJsonIndexDocument idx op res s3 stored) :
    d ∈ idx ∨ d = ⟨op, s3, stored, res⟩ := by
  have hByOp : ∀ l : List DocIndexEntry,
      d ∈ (if l.any (fun x => x.operation_id == op) then
            updateFirst (fun x => x.operation_id == op)
              (fun _ => (⟨op, s3, stored, res⟩ : DocIndexEntry)) l
          else l ++ [⟨op, s3, stored, res⟩]) →
      d ∈ l ∨ d = ⟨op, s3, stored, res⟩ := by
    intro l hl
    by_cases h : l.any (fun x => x.operation_id == op)
    · rw [if_pos h] at hl
      rcases mem_updateFirst hl with h1 | ⟨y, _, _, h2⟩
      · exact Or.inl h1
      · exact Or.inr h2
    · rw [if_neg h] at hl
      rcases List.mem_append.mp hl with h1 | h1
      · exact Or.inl h1
      · exact Or.inr (List.mem_singleton.mp h1)
  simp only [updateJsonIndexDocument] at hd
  by_cases hfk : (fileKey s3 stored).isSome
  · rw [if_pos hfk] at hd
    by_cases h : idx.any (docKeyMatch s3 stored)
    · rw [if_pos h] at hd
      rcases mem_updateFirst hd with h1 | ⟨y, _, _, h2⟩
      · exact Or.inl h1
      · exact Or.inr h2
    · rw [if_neg h] at hd
      exact hByOp idx hd
  · rw [if_neg hfk] at hd
    exact hByOp idx hd

/-- C1 amended: on the document path the invariant does hold — every
entry of the documents index after upserting a filtered verdict has its
matched ids inside the framework id sets (whatever the raw parsed
response contained), provided the previous entries already did. -/
theorem docStore_filtered_subsets (details : AuditDetails) (parsed res : Analysis)
    (idx : List DocIndexEntry) (op : Int) (s3 stored : Option String)
    (hidx : ∀ d ∈ idx, matchedSubsets details d.analysis)
    (hres : analyzeDocumentAuditRelevance details (some parsed) = some res) :
    ∀ d ∈ updateJsonIndexDocument idx op res s3 stored,
      matchedSubsets details d.analysis := by
  have hres' : res = filterRelevance details parsed := by
    simpa [analyzeDocumentAuditRelevance] using hres.symm
  intro d hd
  rcases mem_updateJsonIndexDocument hd with h | h
  · exact hidx d h
  · rw [h, hres']
    refine ⟨?_, ?_, ?_⟩ <;>
    · intro x hx
      simp only [filterRelevance, List.mem_filter, decide_eq_true_eq] at hx
      exact hx.2

/-- Witness for C1 amended: a raw verdict naming foreign ids is stored
with only the in-framework ids kept. -/
theorem docStore_filtered_subsets_witness :
    matchedSubsets ⟨[1], [2], [42]⟩
      ((⟨5, some "k", none,
        filterRelevance ⟨[1], [2], [42]⟩ ⟨9/10, "", [3, 1], [2, 9], [42, 9999]⟩⟩
          : DocIndexEntry).analysis) :=
  docStore_filtered_subsets ⟨[1], [2], [42]⟩ ⟨9/10, "", [3, 1], [2, 9], [42, 9999]⟩
    (filterRelevance ⟨[1], [2], [42]⟩ ⟨9/10, "", [3, 1], [2, 9], [42, 9999]⟩)
    [] 5 (some "k") none (by simp) rfl
    ⟨5, some "k", none, filterRelevance ⟨[1], [2], [42]⟩ ⟨9/10, "", [3, 1], [2, 9], [42, 9999]⟩⟩
    (by exact List.mem_singleton.mpr rfl)

/-! ### C8: document identity resolution -/

/-- Counterexample to C8 as stated: a document whose content key is
present but not yet in the index is nevertheless skipped, because the
operation-id fallback is consulted even when a content key exists. -/
theorem docIdentity_fallback_counterexample :
    docAlreadyAnalyzed [⟨7, some "k1", none, ⟨1/2, "", [], [], []⟩⟩] ⟨7, some "k2", none⟩ = true
    ∧ fileKey (some "k2") (none : Option String) = some "k2"
    ∧ (analyzedFileKeys [⟨7, some "k1", none, ⟨1/2, "", [], [], []⟩⟩]).contains "k2" = false :=
  ⟨rfl, rfl, rfl⟩

/-- The upserted entry itself is always a member of the updated
documents index. -/
theorem self_mem_updateJsonIndexDocument (idx : List DocIndexEntry) (op : Int)
    (res : Analysis) (s3 stored : Option String) :
    (⟨op, s3, stored, res⟩ : DocIndexEntry) ∈ updateJsonIndexDocument idx op res s3 stored := by
  have hByOp : ∀ l : List DocIndexEntry,
      (⟨op, s3, stored, res⟩ : DocIndexEntry)
        ∈ (if l.any (fun x => x.operation_id == op) then
            updateFirst (fun x => x.operation_id == op)
              (fun _ => (⟨op, s3, stored, res⟩ : DocIndexEntry)) l
          else l ++ [⟨op, s3, stored, res⟩]) := by
    intro l
    by_cases h : l.any (fun x => x.operation_id == op)
    · rw [if_pos h]; exact self_mem_updateFirst_const h
    · rw [if_neg h]; exact List.mem_append_right _ (List.mem_singleton.mpr rfl)
  simp only [updateJsonIndexDocument]
  by_cases hfk : (fileKey s3 stored).isSome
  · rw [if_pos hfk]
    by_cases h : idx.any (docKeyMatch s3 stored)
    · rw [if_pos h]; exact self_mem_updateFirst_const h
    · rw [if_neg h]; exact hByOp idx
  · rw [if_neg hfk]; exact hByOp idx

/-- C8 amended: when a document carries a content key, the engine skips
it iff the key is already indexed or (fallback applied even with a key
present) its operation id is; and two analyses carrying the same content
key collapse to a single index entry — the second upsert replaces
instead of growing the index. -/
theorem docIdentity_amended (idx : List DocIndexEntry) (doc : DocRow) (k : String)
    (op1 op2 : Int) (a1 a2 : Analysis)
    (hk : fileKey doc.s3_key doc.stored_name = some k) :
    (docAlreadyAnalyzed idx doc
      = ((analyzedFileKeys idx).contains k || (analyzedOperationIds idx).contains doc.id))
    ∧ (updateJsonIndexDocument
        (updateJsonIndexDocument idx op1 a1 doc.s3_key doc.stored_name)
        op2 a2 doc.s3_key doc.stored_name).length
      = (updateJsonIndexDocument idx op1 a1 doc.s3_key doc.stored_name).length := by
  constructor
  · rw [docAlreadyAnalyzed, hk]
    rfl
  · have hmem : (⟨op1, doc.s3_key, doc.stored_name, a1⟩ : DocIndexEntry)
        ∈ updateJsonIndexDocument idx op1 a1 doc.s3_key doc.stored_name :=
      self_mem_updateJsonIndexDocument idx op1 a1 _ _
    have hany : (updateJsonIndexDocument idx op1 a1 doc.s3_key doc.stored_name).any
        (docKeyMatch doc.s3_key doc.stored_name) = true :=
      List.any_eq_true.mpr ⟨_, hmem, by simp [docKeyMatch]⟩
    conv_lhs => rw [updateJsonIndexDocument]
    rw [hk]
    simp only [Option.isSome_some, if_true]
    rw [if_pos hany, length_updateFirst]

/-- Witness for C8 amended at a concrete index and document. -/
theorem docIdentity_amended_witness :
    fileKey (some "k2") (none : Option String) = some "k2"
    ∧ docAlreadyAnalyzed [⟨7, some "k1", none, ⟨1/2, "", [], [], []⟩⟩] ⟨7, some "k2", none⟩
      = ((analyzedFileKeys [⟨7, some "k1", none, ⟨1/2, "", [], [], []⟩⟩]).contains "k2"
        || (analyzedOperationIds [⟨7, some "k1", none, ⟨1/2, "", [], [], []⟩⟩]).contains 7) :=
  ⟨rfl,
    (docIdentity_amended [⟨7, some "k1", none, ⟨1/2, "", [], [], []⟩⟩] ⟨7, some "k2", none⟩
      "k2" 1 2 ⟨0, "", [], [], []⟩ ⟨0, "", [], [], []⟩ rfl).1⟩

/-! ### C5: the aggregate signal -/

/-- Counterexample to C5 as stated: a document analyzed during the
current run (entering the index with score 0.9) is not counted by the
aggregate — `overall_score` is computed from the document index snapshot
bound before the run, so it comes out 0 and the audit is classified
no-evidence. -/
theorem aggregate_stale_docs_counterexample :
    let r := runAudit (fun _ => some ⟨9/10, "", [], [], []⟩) (fun _ _ => none) [] 1 7
      [⟨3, some "k", some "s"⟩] [] [] [] ⟨[], [], 1⟩
    r.docsIndex = [⟨3, some "k", some "s", ⟨9/10, "", [], [], []⟩⟩]
    ∧ r.analyzedDocs = [3]
    ∧ r.overall_score = 0
    ∧ r.classification = .noEvidence :=
  ⟨rfl, rfl, rfl, rfl⟩

/-- C5 amended: `overall_score` is the maximum over the scores of the
document-index snapshot loaded at the start of the run together with all
database-index scores (cached and newly analyzed), 0 when there are
none; the audit is classified into exactly one of the four classes by
the mere presence of each evidence kind in those score lists. -/
theorem runAudit_aggregate (docAnalyzer : DocRow → Option Analysis)
    (dbAnalyzer : String → DbRecord → Option Analysis) (comps : List ComplianceRow)
    (fid aid : Int) (docs : List DocRow) (dbData : List (String × List DbRecord))
    (docsIdx0 : List DocIndexEntry) (dbIdx0 : DbIndex) (st0 : DbState) :
    let r := runAudit docAnalyzer dbAnalyzer comps fid aid docs dbData docsIdx0 dbIdx0 st0
    let scores := docsIdx0.map (fun d => d.analysis.relevance_score) ++ dbIndexScores r.dbIndex
    (scores = [] → r.overall_score = 0)
    ∧ (∀ s ∈ scores, s ≤ r.overall_score)
    ∧ (scores ≠ [] → r.overall_score ∈ scores)
    ∧ r.classification
      = classify (!(docsIdx0.map (fun d => d.analysis.relevance_score)).isEmpty)
          (!(dbIndexScores r.dbIndex).isEmpty) := by
  intro r scores
  have hov : r.overall_score = if scores.isEmpty then 0 else pyMax scores := rfl
  refine ⟨?_, ?_, ?_, rfl⟩
  · intro h
    rw [hov, h]
    rfl
  · intro s hs
    rw [hov, if_neg (by simp [List.isEmpty_iff, List.ne_nil_of_mem hs])]
    exact le_pyMax hs
  · intro h
    rw [hov, if_neg (by simp [List.isEmpty_iff, h])]
    exact pyMax_mem h

/-- Witness for C5 amended at a concrete run with one cached document
entry. -/
theorem runAudit_aggregate_witness :
    ([(⟨3, some "k", none, ⟨1/2, "", [], [], []⟩⟩ : DocIndexEntry)].map
        (fun d => d.analysis.relevance_score)
      ++ dbIndexScores (runAudit (fun _ => none) (fun _ _ => none) [] 1 7 [] []
          [⟨3, some "k", none, ⟨1/2, "", [], [], []⟩⟩] [] ⟨[], [], 1⟩).dbIndex) ≠ []
    ∧ (runAudit (fun _ => none) (fun _ _ => none) [] 1 7 [] []
        [⟨3, some "k", none, ⟨1/2, "", [], [], []⟩⟩] [] ⟨[], [], 1⟩).overall_score
      ∈ ([(⟨3, some "k", none, ⟨1/2, "", [], [], []⟩⟩ : DocIndexEntry)].map
          (fun d => d.analysis.relevance_score)
        ++ dbIndexScores (runAudit (fun _ => none) (fun _ _ => none) [] 1 7 [] []
            [⟨3, some "k", none, ⟨1/2, "", [], [], []⟩⟩] [] ⟨[], [], 1⟩).dbIndex) :=
  ⟨by simp,
    (runAudit_aggregate (fun _ => none) (fun _ _ => none) [] 1 7 [] []
      [⟨3, some "k", none, ⟨1/2, "", [], [], []⟩⟩] [] ⟨[], [], 1⟩).2.2.1 (by simp)⟩

/-! ### C6: the combined-evidence dispatch -/

/-- C6 amended: in the 0.7-document / 0.75-record scenario the aggregate
is 0.75 and the classification combined, and exactly one verification
task is dispatched — but it references the best *document* (the only
evidence `_auto_process_relevant_document` can start from) together with
the combined-evidence flag, not the higher-scoring record. -/
theorem runAudit_combined_dispatch (docAnalyzer : DocRow → Option Analysis)
    (dbAnalyzer : String → DbRecord → Option Analysis) (comps : List ComplianceRow)
    (fid aid : Int) (st0 : DbState) (d : DocIndexEntry) (t : String) (e : DbIndexEntry)
    (hd : d.analysis.relevance_score = 7/10)
    (he : e.analysis.relevance_score = 3/4) :
    let r := runAudit docAnalyzer dbAnalyzer comps fid aid [] [] [d] [(t, [e])] st0
    r.overall_score = 3/4 ∧ r.classification = .combined
    ∧ r.dispatches = [⟨d.operation_id, true⟩] := by
  intro r
  have hov : r.overall_score = max d.analysis.relevance_score e.analysis.relevance_score := rfl
  rw [hd, he] at hov
  have hmax : r.overall_score = 3/4 := by
    rw [hov]
    exact max_eq_right (by norm_num)
  refine ⟨hmax, rfl, ?_⟩
  have hdisp : r.dispatches =
      if evidenceThreshold ≤ r.overall_score then [⟨d.operation_id, true⟩] else [] := rfl
  rw [hdisp, hmax, if_pos (by norm_num [evidenceThreshold])]

/-- Counterexample to C6 as stated: with the document at 0.7 and the
record at 0.75 the single dispatched task references operation id 1 —
the document — although the record evidence scores higher. -/
theorem dispatch_references_document_counterexample :
    let d : DocIndexEntry := ⟨1, some "k", some "s", ⟨7/10, "", [], [], []⟩⟩
    let e : DbIndexEntry := ⟨"incidents", 5, ⟨3/4, "", [], [], []⟩⟩
    let r := runAudit (fun _ => none) (fun _ _ => none) [] 1 7 [] [] [d]
      [("incidents", [e])] ⟨[], [], 1⟩
    r.overall_score = 3/4
    ∧ r.classification = .combined
    ∧ r.dispatches = [⟨1, true⟩]
    ∧ d.analysis.relevance_score < e.analysis.relevance_score := by
  intro d e r
  have hov : r.overall_score = max (7/10 : ℚ) (3/4) := rfl
  have hmax : r.overall_score = 3/4 := by
    rw [hov]
    exact max_eq_right (by norm_num)
  refine ⟨hmax, rfl, ?_, by norm_num⟩
  have hdisp : r.dispatches =
      if evidenceThreshold ≤ r.overall_score then [⟨(1 : Int), true⟩] else [] := rfl
  rw [hdisp, hmax, if_pos (by norm_num [evidenceThreshold])]

/-- Witness for C6 amended at concrete entries. -/
theorem runAudit_combined_dispatch_witness :
    (runAudit (fun _ => none) (fun _ _ => none) [] 2 9 [] []
        [⟨4, some "a", none, ⟨7/10, "", [], [], []⟩⟩]
        [("risks", [⟨"risks", 8, ⟨3/4, "", [], [], []⟩⟩])] ⟨[], [], 1⟩).dispatches
      = [⟨4, true⟩] :=
  (runAudit_combined_dispatch (fun _ => none) (fun _ _ => none) [] 2 9 ⟨[], [], 1⟩
    ⟨4, some "a", none, ⟨7/10, "", [], [], []⟩⟩ "risks" ⟨"risks", 8, ⟨3/4, "", [], [], []⟩⟩
    rfl rfl).2.2

/-! ### C4: idempotence of reruns and evidence uniqueness -/

/-- Counterexample to C4 as stated: one document with two matched
compliances yields two `ai_audit_data` rows sharing the same
`(audit_id, external_id)` — the per-(audit, provenance) uniqueness does
not hold for document evidence (one row is created per compliance
mapping). -/
theorem autoProcess_two_mappings_counterexample :
    let entry : DocIndexEntry := ⟨5, some "k", some "s", ⟨9/10, "", [], [], [7, 8]⟩⟩
    let out := autoProcessRelevantDocument [entry] 5 entry.analysis 426 1
      [⟨5, "d.pdf", some "k", some "s", "pdf", "completed"⟩]
      [⟨7, some 70, some 700⟩, ⟨8, some 80, some 800⟩] ⟨[], [], 1⟩
    out.evidence.map (fun r => (r.audit_id, r.external_id))
      = [(426, "5"), (426, "5")] := by
  decide

/-- A document-index upsert keeps every entry that matches neither the
new document's content keys nor its operation id. -/
theorem mem_updateJsonIndexDocument_of_disjoint {idx : List DocIndexEntry}
    {op : Int} {res : Analysis} {s3 stored : Option String} {e : DocIndexEntry}
    (he : e ∈ idx) (hkey : docKeyMatch s3 stored e = false) (hop : e.operation_id ≠ op) :
    e ∈ updateJsonIndexDocument idx op res s3 stored := by
  have hopb : (e.operation_id == op) = false := beq_eq_false_iff_ne.mpr hop
  have hByOp : e ∈ (if idx.any (fun x => x.operation_id == op) then
        updateFirst (fun x => x.operation_id == op)
          (fun _ => (⟨op, s3, stored, res⟩ : DocIndexEntry)) idx
      else idx ++ [⟨op, s3, stored, res⟩]) := by
    by_cases h : idx.any (fun x => x.operation_id == op)
    · rw [if_pos h]
      exact mem_updateFirst_of_pred_false he hopb
    · rw [if_neg h]
      exact List.mem_append_left _ he
  simp only [updateJsonIndexDocument]
  by_cases hfk : (fileKey s3 stored).isSome
  · rw [if_pos hfk]
    by_cases h : idx.any (docKeyMatch s3 stored)
    · rw [if_pos h]
      exact mem_updateFirst_of_pred_false he hkey
    · rw [if_neg h]
      exact hByOp
  · rw [if_neg hfk]
    exact hByOp

/-- An entry disjoint from every remaining document survives the rest of
the document loop. -/
theorem docPhase_foldl_mem (analyzer : DocRow → Option Analysis)
    (idx0 : List DocIndexEntry) :
    ∀ (rest : List DocRow) (acc : List DocIndexEntry × List Int) (e : DocIndexEntry),
      e ∈ acc.1 →
      (∀ d ∈ rest, docKeyMatch d.s3_key d.stored_name e = false ∧ e.operation_id ≠ d.id) →
      e ∈ (rest.foldl (docPhaseStep analyzer idx0) acc).1 := by
  intro rest
  induction rest with
  | nil => intro acc e he _; exact he
  | cons x rest ih =>
    intro acc e he hdis
    have hx := hdis x (List.mem_cons_self _ _)
    have hrest : ∀ d ∈ rest, docKeyMatch d.s3_key d.stored_name e = false
        ∧ e.operation_id ≠ d.id :=
      fun d hd => hdis d (List.mem_cons_of_mem _ hd)
    rw [List.foldl_cons]
    apply ih
    · rw [docPhaseStep]
      by_cases hskip : docAlreadyAnalyzed idx0 x
      · rw [if_pos hskip]; exact he
      · rw [if_neg hskip]
        cases hax : analyzer x with
        | none => exact he
        | some res =>
          exact mem_updateJsonIndexDocument_of_disjoint he hx.1 hx.2
    · exact hrest

/-- Every non-skipped document of the batch ends with its own entry in
the documents index, provided the batch is pairwise disjoint. -/
theorem docPhase_foldl_contains (analyzer : DocRow → Option Analysis)
    (idx0 : List DocIndexEntry) :
    ∀ (rest : List DocRow) (acc : List DocIndexEntry × List Int) (d : DocRow) (a : Analysis),
      d ∈ rest → rest.Pairwise DisjointDoc →
      (∀ x ∈ rest, docAlreadyAnalyzed idx0 x = false) →
      analyzer d = some a →
      docEntryOf d a ∈ (rest.foldl (docPhaseStep analyzer idx0) acc).1 := by
  intro rest
  induction rest with
  | nil => intro acc d a hd; simp at hd
  | cons x rest ih =>
    intro acc d a hd hpw hskip hana
    rw [List.foldl_cons]
    rcases List.mem_cons.mp hd with rfl | hd2
    · -- the head is the document itself: its entry appears now and survives
      have hstep : (docPhaseStep analyzer idx0 acc d).1
          = updateJsonIndexDocument acc.1 d.id a d.s3_key d.stored_name := by
        rw [docPhaseStep, if_neg (by simp [hskip d (List.mem_cons_self _ _)]), hana]
      apply docPhase_foldl_mem
      · rw [hstep]
        exact self_mem_updateJsonIndexDocument acc.1 d.id a d.s3_key d.stored_name
      · intro y hy
        have hrel : DisjointDoc d y := (List.pairwise_cons.mp hpw).1 y hy
        refine ⟨?_, ?_⟩
        · rw [docKeyMatch]
          simp only [docEntryOf, Bool.or_eq_false_iff]
          exact ⟨beq_eq_false_iff_ne.mpr hrel.2.1, beq_eq_false_iff_ne.mpr hrel.2.2⟩
        · exact hrel.1
    · exact ih _ d a hd2 (List.pairwise_cons.mp hpw).2
        (fun y hy => hskip y (List.mem_cons_of_mem _ hy)) hana

/-- A batch of documents that are all already analyzed leaves index and
analysis log untouched. -/
theorem runDocPhase_all_skipped (analyzer : DocRow → Option Analysis)
    (idx : List DocIndexEntry) (docs : List DocRow)
    (h : ∀ d ∈ docs, docAlreadyAnalyzed idx d = true) :
    runDocPhase analyzer idx docs = (idx, []) := by
  rw [runDocPhase]
  induction docs with
  | nil => rfl
  | cons x docs ih =>
    rw [List.foldl_cons, docPhaseStep, if_pos (h x (List.mem_cons_self _ _))]
    exact ih (fun d hd => h d (List.mem_cons_of_mem _ hd))

/-- A document whose content key is carried by some index entry counts
as already analyzed. -/
theorem docAlreadyAnalyzed_of_entry {idx : List DocIndexEntry} {doc : DocRow}
    {e : DocIndexEntry} (he : e ∈ idx)
    (hk : fileKey e.s3_key e.stored_name = fileKey doc.s3_key doc.stored_name)
    (hsome : (fileKey doc.s3_key doc.stored_name).isSome) :
    docAlreadyAnalyzed idx doc = true := by
  obtain ⟨k, hk2⟩ := Option.isSome_iff_exists.mp hsome
  have hmem : k ∈ analyzedFileKeys idx :=
    List.mem_filterMap.mpr ⟨e, he, by rw [hk, hk2]⟩
  rw [docAlreadyAnalyzed, hk2]
  simp only [Option.any, List.contains, Bool.or_eq_true]
  exact Or.inl (List.elem_iff.mpr hmem)

/-- After upserting `rid` into a table's entry list, an entry with that
record id is present. -/
theorem updateTableEntries_has_rid (t : String) (rid : Int) (res : Analysis)
    (entries : List DbIndexEntry) :
    (updateTableEntries t rid res entries).any (fun r => r.record_id == rid) = true := by
  rw [updateTableEntries]
  by_cases h : entries.any (fun r => r.record_id == rid)
  · rw [if_pos h]
    exact List.any_eq_true.mpr ⟨_, self_mem_updateFirst_const h, by simp⟩
  · rw [if_neg h]
    simp

/-- Upserting one record id preserves the presence of any other. -/
theorem updateTableEntries_any_mono {entries : List DbIndexEntry} {rid : Int}
    (h : entries.any (fun r => r.record_id == rid) = true)
    (t' : String) (rid' : Int) (res : Analysis) :
    (updateTableEntries t' rid' res entries).any (fun r => r.record_id == rid) = true := by
  by_cases heq : rid' = rid
  · subst heq
    exact updateTableEntries_has_rid t' rid' res entries
  · rw [updateTableEntries]
    by_cases h2 : entries.any (fun r => r.record_id == rid')
    · rw [if_pos h2]
      obtain ⟨y, hy, hpy⟩ := List.any_eq_true.mp h
      have hrid : y.record_id = rid := by simpa using hpy
      have hyne : (y.record_id == rid') = false := by
        rw [hrid]
        exact beq_eq_false_iff_ne.mpr (fun hx => heq hx.symm)
      exact List.any_eq_true.mpr ⟨y, mem_updateFirst_of_pred_false hy hyne, hpy⟩
    · rw [if_neg h2]
      simp only [List.any_append, h, Bool.true_or]

/-- The upserted record id is always present afterwards in its table. -/
theorem alreadyAnalyzedDb_update_self (idx : DbIndex) (t : String) (rid : Int)
    (res : Analysis) :
    alreadyAnalyzedDb (updateJsonIndexDatabase idx t rid res) t rid = true := by
  rw [alreadyAnalyzedDb, updateJsonIndexDatabase]
  by_cases hany : idx.any (fun p => p.1 == t)
  · rw [if_pos hany]
    have hfs : (idx.find? (fun p => p.1 == t)).isSome :=
      List.find?_isSome.mpr (by simpa using List.any_eq_true.mp hany)
    obtain ⟨p0, hp0⟩ := Option.isSome_iff_exists.mp hfs
    rw [lookupTable, @find?_updateFirst _ (fun p => p.1 == t)
      (fun p => (p.1, updateTableEntries t rid res p.2)) idx (fun x => rfl), hp0]
    simpa using updateTableEntries_has_rid t rid res p0.2
  · rw [if_neg hany]
    simp only [Bool.not_eq_true] at hany
    have hnone : idx.find? (fun p => p.1 == t) = none :=
      List.find?_eq_none.mpr (List.any_eq_false.mp hany)
    rw [lookupTable, List.find?_append, hnone]
    simpa [List.find?_cons] using updateTableEntries_has_rid t rid res []

/-- Upserting any record preserves membership of every already-analyzed
record. -/
theorem alreadyAnalyzedDb_update_mono {idx : DbIndex} {t : String} {rid : Int}
    (h : alreadyAnalyzedDb idx t rid = true) (t' : String) (rid' : Int) (res : Analysis) :
    alreadyAnalyzedDb (updateJsonIndexDatabase idx t' rid' res) t rid = true := by
  rw [alreadyAnalyzedDb] at h
  cases hlt : lookupTable idx t with
  | none => rw [hlt] at h; simp at h
  | some entries =>
    rw [hlt] at h
    simp only at h
    rw [alreadyAnalyzedDb, updateJsonIndexDatabase]
    by_cases hany : idx.any (fun p => p.1 == t')
    · rw [if_pos hany]
      by_cases hts : t' = t
      · subst hts
        obtain ⟨p0, hp0, hsnd⟩ := Option.map_eq_some'.mp hlt
        rw [lookupTable, @find?_updateFirst _ (fun p => p.1 == t')
          (fun p => (p.1, updateTableEntries t' rid' res p.2)) idx (fun x => rfl), hp0]
        simp only [Option.map_some']
        have := updateTableEntries_any_mono (hsnd ▸ h) t' rid' res
        simpa using this
      · have hdis : ∀ x : String × List DbIndexEntry,
            (x.1 == t') = true → (x.1 == t) = false := by
          intro x hx
          have hxt : x.1 = t' := by simpa using hx
          rw [hxt]
          exact beq_eq_false_iff_ne.mpr hts
        rw [lookupTable, @find?_updateFirst_disjoint _ (fun p => p.1 == t')
          (fun p => p.1 == t) (fun p => (p.1, updateTableEntries t' rid' res p.2)) idx
          hdis (fun x => rfl), ← lookupTable, hlt]
        simpa using h
    · rw [if_neg hany]
      obtain ⟨p0, hp0, hsnd⟩ := Option.map_eq_some'.mp hlt
      rw [lookupTable, List.find?_append, hp0]
      simpa [hsnd] using h

/-- `updRow` never touches the identity columns of a row. -/
theorem evKeyPred_updRow (aid : Int) (x : String) (c : ComplianceRow) (n : String)
    (s : AnalysisSnapshot) (r : EvidenceRow) :
    evKeyPred aid x (updRow c n s r) = evKeyPred aid x r := rfl

/-- The update branch of database-evidence synthesis is idempotent on a
row. -/
theorem updRow_idem (c : ComplianceRow) (n : String) (s : AnalysisSnapshot)
    (r : EvidenceRow) :
    updRow c n s (updRow c n s r) = updRow c n s r := by
  cases hp : truthyOpt r.policy_id <;> cases hs : truthyOpt r.subpolicy_id <;>
    cases ha : r.compliance_analyses <;>
      simp [updRow, hp, hs, ha, ite_self]

/-- A freshly inserted row is a fixed point of the update branch. -/
theorem updRow_fresh (c : ComplianceRow) (n : String) (s : AnalysisSnapshot)
    (r : EvidenceRow) (hpol : r.policy_id = c.policyId)
    (hsub : r.subpolicy_id = c.subPolicyId) (hname : r.document_name = n)
    (hana : r.compliance_analyses = some s) :
    updRow c n s r = r := by
  rcases r with ⟨rowId, audit_id, external_source, external_id, policy_id, subpolicy_id,
    document_name, document_type, ai_processing_status, compliance_analyses, frameworkId⟩
  simp only at hpol hsub hname hana
  subst hpol hsub hname hana
  simp [updRow, ite_self]

/-- Processing an entry leaves it stable. -/
theorem processDbAnalysis_stable_self (comps : List ComplianceRow) (fid aid : Int)
    (t : String) (e : DbIndexEntry) (st : DbState) :
    Stable comps aid t e (processDbAnalysis comps fid aid t e st) := by
  by_cases hc : e.record_id = 0 ∨ e.analysis.relevance_score < evidenceThreshold
  · rw [Stable, if_pos hc]
    trivial
  · rw [Stable, if_neg hc]
    cases hr : resolvedComp comps t e with
    | none => trivial
    | some comp =>
      simp only [processDbAnalysis]
      rw [if_neg hc]
      simp only [hr]
      cases hfind : st.evidence.find? (evKeyPred aid (dbEntryKey t e)) with
      | some r0 =>
        simp only [hfind]
        refine ⟨updRow comp ("Evidence " ++ toString e.record_id) _ r0, ?_, updRow_idem _ _ _ _⟩
        rw [@find?_updateFirst _ (evKeyPred aid (dbEntryKey t e))
          (updRow comp ("Evidence " ++ toString e.record_id)
            ⟨t, e.record_id, comp.complianceId, e.analysis.relevance_score,
              e.analysis.relevance_reason.take 500⟩) st.evidence (fun x => rfl), hfind]
        rfl
      | none =>
        simp only [hfind]
        have hpred : evKeyPred aid (dbEntryKey t e)
            { rowId := st.nextId, audit_id := aid, external_source := "database_record",
              external_id := dbEntryKey t e, policy_id := comp.policyId,
              subpolicy_id := comp.subPolicyId,
              document_name := "Evidence " ++ toString e.record_id,
              document_type := "db_record", ai_processing_status := "completed",
              compliance_analyses := some ⟨t, e.record_id, comp.complianceId,
                e.analysis.relevance_score, e.analysis.relevance_reason.take 500⟩,
              frameworkId := some fid } = true := by
          simp [evKeyPred]
        have hmain : ∀ st2 : DbState,
            st2.evidence = st.evidence ++
              [{ rowId := st.nextId, audit_id := aid, external_source := "database_record",
                 external_id := dbEntryKey t e, policy_id := comp.policyId,
                 subpolicy_id := comp.subPolicyId,
                 document_name := "Evidence " ++ toString e.record_id,
                 document_type := "db_record", ai_processing_status := "completed",
                 compliance_analyses := some ⟨t, e.record_id, comp.complianceId,
                   e.analysis.relevance_score, e.analysis.relevance_reason.take 500⟩,
                 frameworkId := some fid }] →
            ∃ r, st2.evidence.find? (evKeyPred aid (dbEntryKey t e)) = some r
              ∧ updRow comp ("Evidence " ++ toString e.record_id)
                  ⟨t, e.record_id, comp.complianceId, e.analysis.relevance_score,
                    e.analysis.relevance_reason.take 500⟩ r = r := by
          intro st2 hev
          refine ⟨{ rowId := st.nextId, audit_id := aid,
                    external_source := "database_record",
                    external_id := dbEntryKey t e, policy_id := comp.policyId,
                    subpolicy_id := comp.subPolicyId,
                    document_name := "Evidence " ++ toString e.record_id,
                    document_type := "db_record", ai_processing_status := "completed",
                    compliance_analyses := some ⟨t, e.record_id, comp.complianceId,
                      e.analysis.relevance_score, e.analysis.relevance_reason.take 500⟩,
                    frameworkId := some fid }, ?_, updRow_fresh _ _ _ _ rfl rfl rfl rfl⟩
          rw [hev, List.find?_append, hfind]
          simp only [Option.none_orElse, List.find?_cons, hpred]
          rfl
        by_cases hcl : checklistThreshold ≤ e.analysis.relevance_score
        · rw [if_pos hcl]
          exact hmain _ rfl
        · rw [if_neg hcl]
          exact hmain _ rfl

/-- Processing an entry with a different evidence identity preserves
stability. -/
theorem processDbAnalysis_stable_preserved {comps : List ComplianceRow} {fid aid : Int}
    {t : String} {e : DbIndexEntry} {t' : String} {e' : DbIndexEntry} {st : DbState}
    (hne : dbEntryKey t e ≠ dbEntryKey t' e')
    (hst : Stable comps aid t e st) :
    Stable comps aid t e (processDbAnalysis comps fid aid t' e' st) := by
  by_cases hc : e.record_id = 0 ∨ e.analysis.relevance_score < evidenceThreshold
  · rw [Stable, if_pos hc]
    trivial
  · rw [Stable, if_neg hc] at hst ⊢
    cases hr : resolvedComp comps t e with
    | none => simp only [hr]
    | some comp =>
      simp only [hr] at hst ⊢
      obtain ⟨r, hfindr, hfix⟩ := hst
      by_cases hc' : e'.record_id = 0 ∨ e'.analysis.relevance_score < evidenceThreshold
      · simp only [processDbAnalysis]
        rw [if_pos hc']
        exact ⟨r, hfindr, hfix⟩
      · simp only [processDbAnalysis]
        rw [if_neg hc']
        cases hr' : resolvedComp comps t' e' with
        | none =>
          simp only [hr']
          exact ⟨r, hfindr, hfix⟩
        | some comp' =>
          simp only [hr']
          have hdis : ∀ x, evKeyPred aid (dbEntryKey t' e') x = true →
              evKeyPred aid (dbEntryKey t e) x = false := by
            intro x hx
            cases hval : evKeyPred aid (dbEntryKey t e) x
            · rfl
            · exfalso
              simp only [evKeyPred, Bool.and_eq_true, beq_iff_eq] at hx hval
              exact hne (hval.2.symm.trans hx.2)
          cases hfind' : st.evidence.find? (evKeyPred aid (dbEntryKey t' e')) with
          | some r0 =>
            simp only [hfind']
            refine ⟨r, ?_, hfix⟩
            rw [@find?_updateFirst_disjoint _ (evKeyPred aid (dbEntryKey t' e'))
              (evKeyPred aid (dbEntryKey t e))
              (updRow comp' ("Evidence " ++ toString e'.record_id)
                ⟨t', e'.record_id, comp'.complianceId, e'.analysis.relevance_score,
                  e'.analysis.relevance_reason.take 500⟩)
              st.evidence hdis (fun x => rfl)]
            exact hfindr
          | none =>
            simp only [hfind']
            have hmain : ∀ st2 : DbState, (∃ n, st2.evidence = st.evidence ++ [n]) →
                ∃ r2, st2.evidence.find? (evKeyPred aid (dbEntryKey t e)) = some r2
                  ∧ updRow comp ("Evidence " ++ toString e.record_id)
                      ⟨t, e.record_id, comp.complianceId, e.analysis.relevance_score,
                        e.analysis.relevance_reason.take 500⟩ r2 = r2 := by
              rintro st2 ⟨n, hev⟩
              refine ⟨r, ?_, hfix⟩
              rw [hev, List.find?_append, hfindr]
              rfl
            by_cases hcl : checklistThreshold ≤ e'.analysis.relevance_score
            · rw [if_pos hcl]
              exact hmain _ ⟨_, rfl⟩
            · rw [if_neg hcl]
              exact hmain _ ⟨_, rfl⟩

/-- Processing a stable entry changes nothing. -/
theorem processDbAnalysis_of_stable {comps : List ComplianceRow} {fid aid : Int}
    {t : String} {e : DbIndexEntry} {st : DbState}
    (hst : Stable comps aid t e st) :
    processDbAnalysis comps fid aid t e st = st := by
  by_cases hc : e.record_id = 0 ∨ e.analysis.relevance_score < evidenceThreshold
  · simp only [processDbAnalysis]
    rw [if_pos hc]
  · rw [Stable, if_neg hc] at hst
    cases hr : resolvedComp comps t e with
    | none =>
      simp only [processDbAnalysis]
      rw [if_neg hc]
      simp only [hr]
    | some comp =>
      simp only [hr] at hst
      obtain ⟨r, hfindr, hfix⟩ := hst
      simp only [processDbAnalysis]
      rw [if_neg hc]
      simp only [hr, hfindr]
      rw [updateFirst_eq_self hfindr hfix]

/-- Stability survives a whole table of entries with different
identities. -/
theorem stable_preserved_table (comps : List ComplianceRow) (fid aid : Int)
    {t : String} {e : DbIndexEntry} (t' : String) (entries : List DbIndexEntry) :
    ∀ st : DbState, (∀ e' ∈ entries, dbEntryKey t e ≠ dbEntryKey t' e') →
      Stable comps aid t e st →
      Stable comps aid t e (processTableAnalyses comps fid aid t' entries st) := by
  induction entries with
  | nil => intro st _ hst; exact hst
  | cons a entries ih =>
    intro st hne hst
    have hstep : processTableAnalyses comps fid aid t' (a :: entries) st
        = processTableAnalyses comps fid aid t' entries
            (processDbAnalysis comps fid aid t' a st) := rfl
    rw [hstep]
    exact ih _ (fun x hx => hne x (List.mem_cons_of_mem _ hx))
      (processDbAnalysis_stable_preserved (hne a (List.mem_cons_self _ _)) hst)

/-- Stability survives all subsequent tables with different
identities. -/
theorem stable_preserved_createFold (comps : List ComplianceRow) (fid aid : Int)
    {t : String} {e : DbIndexEntry} (results : DbIndex) :
    ∀ st : DbState,
      (∀ p ∈ results, ∀ e' ∈ p.2, dbEntryKey t e ≠ dbEntryKey p.1 e') →
      Stable comps aid t e st →
      Stable comps aid t e (createFold comps fid aid results st) := by
  induction results with
  | nil => intro st _ hst; exact hst
  | cons q results ih =>
    intro st hne hst
    have hstep : createFold comps fid aid (q :: results) st
        = createFold comps fid aid results
            (processTableAnalyses comps fid aid q.1 q.2 st) := rfl
    rw [hstep]
    exact ih _ (fun p hp e' he' => hne p (List.mem_cons_of_mem _ hp) e' he')
      (stable_preserved_table comps fid aid q.1 q.2 st
        (fun e' he' => hne q (List.mem_cons_self _ _) e' he') hst)

/-- Once a table with internally distinct identities has been processed,
each of its entries is stable. -/
theorem stable_after_table (comps : List ComplianceRow) (fid aid : Int)
    (t : String) (entries : List DbIndexEntry) :
    ∀ st : DbState, (entries.map (dbEntryKey t)).Nodup →
      ∀ e ∈ entries, Stable comps aid t e (processTableAnalyses comps fid aid t entries st) := by
  induction entries with
  | nil => intro st _ e he; simp at he
  | cons a entries ih =>
    intro st hnod e he
    have hstep : processTableAnalyses comps fid aid t (a :: entries) st
        = processTableAnalyses comps fid aid t entries
            (processDbAnalysis comps fid aid t a st) := rfl
    rw [hstep]
    simp only [List.map_cons, List.nodup_cons] at hnod
    rcases List.mem_cons.mp he with rfl | he2
    · exact stable_preserved_table comps fid aid t entries _
        (fun e' he' => fun hk => hnod.1 (hk ▸ List.mem_map_of_mem _ he'))
        (processDbAnalysis_stable_self comps fid aid t e st)
    · exact ih _ hnod.2 e he2

/-- After the whole synthesis pass over an index with globally distinct
identities, every entry of the index is stable. -/
theorem stable_after_createFold (comps : List ComplianceRow) (fid aid : Int)
    (results : DbIndex) :
    ∀ st : DbState, (allDbKeys results).Nodup →
      ∀ p ∈ results, ∀ e ∈ p.2,
        Stable comps aid p.1 e (createFold comps fid aid results st) := by
  induction results with
  | nil => intro st _ p hp; simp at hp
  | cons q results ih =>
    intro st hnod p hp e he
    have hkeysplit : allDbKeys (q :: results)
        = q.2.map (dbEntryKey q.1) ++ allDbKeys results := by
      simp [allDbKeys]
    rw [hkeysplit] at hnod
    obtain ⟨hn1, hn2, hdisj⟩ := List.nodup_append.mp hnod
    have hstep : createFold comps fid aid (q :: results) st
        = createFold comps fid aid results
            (processTableAnalyses comps fid aid q.1 q.2 st) := rfl
    rw [hstep]
    rcases List.mem_cons.mp hp with rfl | hp2
    · refine stable_preserved_createFold comps fid aid results _ ?_
        (stable_after_table comps fid aid p.1 p.2 st hn1 e he)
      intro p' hp' e' he' hk
      exact hdisj (List.mem_map_of_mem _ he)
        (hk ▸ List.mem_flatMap.mpr ⟨p', hp', List.mem_map_of_mem _ he'⟩)
    · exact ih _ hn2 p hp2 e he

/-- Processing a table of stable entries changes nothing. -/
theorem processTableAnalyses_of_stable (comps : List ComplianceRow) (fid aid : Int)
    (t : String) (entries : List DbIndexEntry) :
    ∀ st : DbState, (∀ e ∈ entries, Stable comps aid t e st) →
      processTableAnalyses comps fid aid t entries st = st := by
  induction entries with
  | nil => intro st _; rfl
  | cons a entries ih =>
    intro st h
    have hstep : processTableAnalyses comps fid aid t (a :: entries) st
        = processTableAnalyses comps fid aid t entries
            (processDbAnalysis comps fid aid t a st) := rfl
    rw [hstep, processDbAnalysis_of_stable (h a (List.mem_cons_self _ _))]
    exact ih st (fun e he => h e (List.mem_cons_of_mem _ he))

/-- A full pass over an index whose entries are all stable changes
nothing. -/
theorem createFold_of_stable (comps : List ComplianceRow) (fid aid : Int)
    (results : DbIndex) :
    ∀ st : DbState, (∀ p ∈ results, ∀ e ∈ p.2, Stable comps aid p.1 e st) →
      createFold comps fid aid results st = st := by
  induction results with
  | nil => intro st _; rfl
  | cons q results ih =>
    intro st h
    have htab : processTableAnalyses comps fid aid q.1 q.2 st = st :=
      processTableAnalyses_of_stable comps fid aid q.1 q.2 st
        (fun e he => h q (List.mem_cons_self _ _) e he)
    have hstep : createFold comps fid aid (q :: results) st
        = createFold comps fid aid results
            (processTableAnalyses comps fid aid q.1 q.2 st) := rfl
    rw [hstep, htab]
    exact ih st (fun p hp e he => h p (List.mem_cons_of_mem _ hp) e he)

/-- Re-running database-evidence synthesis over the same index is a
no-op (given globally distinct evidence identities in the index). -/
theorem createAiEvidence_idem (comps : List ComplianceRow) (fid aid : Int)
    (results : DbIndex) (st : DbState) (hkeys : (allDbKeys results).Nodup) :
    createAiEvidenceFromDbResults comps fid aid results
        (createAiEvidenceFromDbResults comps fid aid results st)
      = createAiEvidenceFromDbResults comps fid aid results st := by
  by_cases hf : fid = 0
  · simp [createAiEvidenceFromDbResults, hf]
  · simp only [createAiEvidenceFromDbResults, if_neg hf]
    exact createFold_of_stable comps fid aid results _
      (fun p hp e he => stable_after_createFold comps fid aid results st hkeys p hp e he)

/-- Nothing counts as analyzed against an empty document index. -/
theorem docAlreadyAnalyzed_nil (doc : DocRow) : docAlreadyAnalyzed [] doc = false := by
  rw [docAlreadyAnalyzed]
  cases fileKey doc.s3_key doc.stored_name <;>
    simp [Option.any, analyzedFileKeys, analyzedOperationIds]

/-- Nothing counts as analyzed against an empty database index. -/
theorem alreadyAnalyzedDb_nil (t : String) (rid : Int) :
    alreadyAnalyzedDb [] t rid = false := rfl

/-- Index updates of one table preserve already-analyzed records. -/
theorem alreadyAnalyzedDb_applyTable_mono (t' : String) (analyses : List DbAnalysis) :
    ∀ (idx : DbIndex) {t : String} {rid : Int},
      alreadyAnalyzedDb idx t rid = true →
      alreadyAnalyzedDb (applyTableResults t' analyses idx) t rid = true := by
  induction analyses with
  | nil => intro idx t rid h; exact h
  | cons a analyses ih =>
    intro idx t rid h
    have hstep : applyTableResults t' (a :: analyses) idx
        = applyTableResults t' analyses
            (if a.record_id ≠ 0 then updateJsonIndexDatabase idx t' a.record_id a.analysis
             else idx) := rfl
    rw [hstep]
    by_cases hz : a.record_id ≠ 0
    · rw [if_pos hz]
      exact ih _ (alreadyAnalyzedDb_update_mono h t' a.record_id a.analysis)
    · rw [if_neg hz]
      exact ih _ h

/-- The whole index-update pass preserves already-analyzed records. -/
theorem alreadyAnalyzedDb_apply_mono (results : List (String × List DbAnalysis)) :
    ∀ (idx : DbIndex) {t : String} {rid : Int},
      alreadyAnalyzedDb idx t rid = true →
      alreadyAnalyzedDb (applyDbResults idx results) t rid = true := by
  induction results with
  | nil => intro idx t rid h; exact h
  | cons q results ih =>
    intro idx t rid h
    have hstep : applyDbResults idx (q :: results)
        = applyDbResults (applyTableResults q.1 q.2 idx) results := rfl
    rw [hstep]
    exact ih _ (alreadyAnalyzedDb_applyTable_mono q.1 q.2 idx h)

/-- A record carried by the update pass of its own table ends up
analyzed. -/
theorem alreadyAnalyzedDb_applyTable_of_mem (t' : String) (analyses : List DbAnalysis) :
    ∀ (idx : DbIndex) {rid : Int},
      (∃ a ∈ analyses, a.record_id = rid ∧ rid ≠ 0) →
      alreadyAnalyzedDb (applyTableResults t' analyses idx) t' rid = true := by
  induction analyses with
  | nil => rintro idx rid ⟨a, ha, -⟩; simp at ha
  | cons a analyses ih =>
    rintro idx rid ⟨b, hb, hbrid, hnz⟩
    have hstep : applyTableResults t' (a :: analyses) idx
        = applyTableResults t' analyses
            (if a.record_id ≠ 0 then updateJsonIndexDatabase idx t' a.record_id a.analysis
             else idx) := rfl
    rw [hstep]
    rcases List.mem_cons.mp hb with rfl | hb2
    · rw [if_pos (hbrid ▸ hnz)]
      apply alreadyAnalyzedDb_applyTable_mono
      rw [← hbrid]
      exact alreadyAnalyzedDb_update_self idx t' b.record_id b.analysis
    · by_cases hz : a.record_id ≠ 0
      · rw [if_pos hz]
        exact ih _ ⟨b, hb2, hbrid, hnz⟩
      · rw [if_neg hz]
        exact ih _ ⟨b, hb2, hbrid, hnz⟩

/-- A record carried by the full update pass ends up analyzed. -/
theorem alreadyAnalyzedDb_apply_of_mem (results : List (String × List DbAnalysis)) :
    ∀ (idx : DbIndex) {t : String} {rid : Int},
      (∃ p ∈ results, p.1 = t ∧ ∃ a ∈ p.2, a.record_id = rid ∧ rid ≠ 0) →
      alreadyAnalyzedDb (applyDbResults idx results) t rid = true := by
  induction results with
  | nil => rintro idx t rid ⟨p, hp, -⟩; simp at hp
  | cons q results ih =>
    rintro idx t rid ⟨p, hp, hpt, hex⟩
    have hstep : applyDbResults idx (q :: results)
        = applyDbResults (applyTableResults q.1 q.2 idx) results := rfl
    rw [hstep]
    rcases List.mem_cons.mp hp with rfl | hp2
    · apply alreadyAnalyzedDb_apply_mono
      rw [← hpt]
      exact alreadyAnalyzedDb_applyTable_of_mem p.1 p.2 idx hex
    · exact ih _ ⟨p, hp2, hpt, hex⟩

/-- An update pass over empty per-table analysis lists changes
nothing. -/
theorem applyDbResults_empty_tables (results : List (String × List DbAnalysis)) :
    ∀ idx : DbIndex, (∀ p ∈ results, p.2 = ([] : List DbAnalysis)) →
      applyDbResults idx results = idx := by
  induction results with
  | nil => intro idx _; rfl
  | cons q results ih =>
    intro idx h
    have hstep : applyDbResults idx (q :: results)
        = applyDbResults (applyTableResults q.1 q.2 idx) results := rfl
    rw [hstep, show applyTableResults q.1 q.2 idx
      = applyTableResults q.1 [] idx from by rw [h q (List.mem_cons_self _ _)]]
    exact ih idx (fun p hp => h p (List.mem_cons_of_mem _ hp))

/-- With an empty database index, every identified record is new. -/
theorem newRecords_nil_idx (t : String) (records : List DbRecord)
    (h : ∀ r ∈ records, (r.record_id).isSome) :
    newRecords [] t records = records := by
  rw [newRecords]
  apply List.filter_eq_self.mpr
  intro r hr
  obtain ⟨k, hk⟩ := Option.isSome_iff_exists.mp (h r hr)
  rw [hk]
  simp [alreadyAnalyzedDb_nil]

/-- Records whose ids are already in the index are not re-analyzed. -/
theorem newRecords_nil_of_analyzed (idx : DbIndex) (t : String)
    (records : List DbRecord)
    (h : ∀ r ∈ records, ∃ k, r.record_id = some k ∧ alreadyAnalyzedDb idx t k = true) :
    newRecords idx t records = [] := by
  rw [newRecords]
  apply List.filter_eq_nil_iff.mpr
  intro r hr
  obtain ⟨k, hk, hal⟩ := h r hr
  rw [hk]
  simp [hal]

/-- A flat map over uniformly empty lists is empty. -/
theorem flatMap_eq_nil_of_forall {α β : Type} (l : List α) (f : α → List β)
    (h : ∀ x ∈ l, f x = []) : l.flatMap f = [] := by
  induction l with
  | nil => rfl
  | cons x l ih =>
    rw [List.flatMap_cons, h x (List.mem_cons_self _ _), List.nil_append]
    exact ih (fun y hy => h y (List.mem_cons_of_mem _ hy))

/-- C4 amended: starting from empty analysis indexes, a second
correlation run over the unchanged evidence set analyzes no document and
no database record again, leaves both persisted indexes identical to the
state after the first run, and leaves the relational evidence and
checklist state unchanged — hence the rerun creates no evidence record.
(Hypotheses: every analysis succeeds, documents carry distinct
identifiers with an s3 key present, each table has at most 50 records
with resolvable nonzero ids, and the resulting index holds globally
distinct evidence identities.) -/
theorem runAudit_rerun_noop
    (docAnalyzer : DocRow → Option Analysis)
    (dbAnalyzer : String → DbRecord → Option Analysis)
    (comps : List ComplianceRow) (fid aid : Int)
    (docs : List DocRow) (dbData : List (String × List DbRecord)) (st0 : DbState)
    (hdocA : ∀ d ∈ docs, (docAnalyzer d).isSome)
    (hdocK : ∀ d ∈ docs, d.s3_key.isSome)
    (hpw : docs.Pairwise DisjointDoc)
    (hrec : ∀ p ∈ dbData, p.2.length ≤ 50
      ∧ ∀ r ∈ p.2, (∃ k, r.record_id = some k ∧ k ≠ 0) ∧ (dbAnalyzer p.1 r).isSome)
    (hkeys : (allDbKeys (runAudit docAnalyzer dbAnalyzer comps fid aid docs dbData
        [] [] st0).dbIndex).Nodup) :
    let r1 := runAudit docAnalyzer dbAnalyzer comps fid aid docs dbData [] [] st0
    let r2 := runAudit docAnalyzer dbAnalyzer comps fid aid docs dbData
      r1.docsIndex r1.dbIndex r1.state
    r2.analyzedDocs = [] ∧ r2.analyzedDb = []
    ∧ r2.docsIndex = r1.docsIndex ∧ r2.dbIndex = r1.dbIndex ∧ r2.state = r1.state := by
  intro r1 r2
  have hskip2 : ∀ d ∈ docs, docAlreadyAnalyzed r1.docsIndex d = true := by
    intro d hd
    obtain ⟨a, ha⟩ := Option.isSome_iff_exists.mp (hdocA d hd)
    have hmem : docEntryOf d a ∈ r1.docsIndex :=
      docPhase_foldl_contains docAnalyzer [] docs ([], []) d a hd hpw
        (fun x _ => docAlreadyAnalyzed_nil x) ha
    obtain ⟨k, hk⟩ := Option.isSome_iff_exists.mp (hdocK d hd)
    refine docAlreadyAnalyzed_of_entry hmem rfl ?_
    show (d.s3_key <|> d.stored_name).isSome = true
    rw [hk]
    rfl
  have hdoc2 : runDocPhase docAnalyzer r1.docsIndex docs = (r1.docsIndex, []) :=
    runDocPhase_all_skipped docAnalyzer r1.docsIndex docs hskip2
  have hdocsIdx : r2.docsIndex = r1.docsIndex := by
    show (runDocPhase docAnalyzer r1.docsIndex docs).1 = r1.docsIndex
    rw [hdoc2]
  have hdocsLog : r2.analyzedDocs = [] := by
    show (runDocPhase docAnalyzer r1.docsIndex docs).2 = []
    rw [hdoc2]
  have hanalyzed : ∀ p ∈ dbData, ∀ r ∈ p.2, ∃ k, r.record_id = some k
      ∧ alreadyAnalyzedDb r1.dbIndex p.1 k = true := by
    intro p hp r hr
    obtain ⟨⟨k, hk, hknz⟩, hsome⟩ := (hrec p hp).2 r hr
    refine ⟨k, hk, ?_⟩
    show alreadyAnalyzedDb (applyDbResults []
      ((dbData.map (fun q => (q.1, newRecords [] q.1 q.2))).map
        (fun q => (q.1, analyzeDbTable dbAnalyzer q.1 q.2)))) p.1 k = true
    apply alreadyAnalyzedDb_apply_of_mem
    refine ⟨(p.1, analyzeDbTable dbAnalyzer p.1 (newRecords [] p.1 p.2)),
      List.mem_map_of_mem _ (List.mem_map_of_mem _ hp), rfl, ?_⟩
    have hnr : newRecords [] p.1 p.2 = p.2 :=
      newRecords_nil_idx p.1 p.2 (fun r2 hr2 => by
        obtain ⟨⟨k2, hk2, -⟩, -⟩ := (hrec p hp).2 r2 hr2
        rw [hk2]
        rfl)
    obtain ⟨a, ha⟩ := Option.isSome_iff_exists.mp hsome
    refine ⟨⟨k, a⟩, ?_, rfl, hknz⟩
    show ⟨k, a⟩ ∈ ((newRecords [] p.1 p.2).take 50).filterMap
      (fun r => (dbAnalyzer p.1 r).map (fun a => (⟨r.record_id.getD 0, a⟩ : DbAnalysis)))
    rw [hnr, List.take_of_length_le (hrec p hp).1]
    exact List.mem_filterMap.mpr ⟨r, hr, by rw [ha, hk]; rfl⟩
  have hnr2 : ∀ p ∈ dbData, newRecords r1.dbIndex p.1 p.2 = [] := by
    intro p hp
    exact newRecords_nil_of_analyzed _ _ _ (hanalyzed p hp)
  have hdbIdx : r2.dbIndex = r1.dbIndex := by
    show applyDbResults r1.dbIndex
      ((dbData.map (fun q => (q.1, newRecords r1.dbIndex q.1 q.2))).map
        (fun q => (q.1, analyzeDbTable dbAnalyzer q.1 q.2))) = r1.dbIndex
    apply applyDbResults_empty_tables
    intro q hq
    obtain ⟨q0, hq0, rfl⟩ := List.mem_map.mp hq
    obtain ⟨p0, hp0, rfl⟩ := List.mem_map.mp hq0
    show analyzeDbTable dbAnalyzer p0.1 (newRecords r1.dbIndex p0.1 p0.2) = []
    rw [hnr2 p0 hp0]
    rfl
  have hdbLog : r2.analyzedDb = [] := by
    show (dbData.map (fun q => (q.1, newRecords r1.dbIndex q.1 q.2))).flatMap
      (fun p => (p.2.take 50).map (fun r => (p.1, r.record_id.getD 0))) = []
    apply flatMap_eq_nil_of_forall
    intro x hx
    obtain ⟨p0, hp0, rfl⟩ := List.mem_map.mp hx
    show ((newRecords r1.dbIndex p0.1 p0.2).take 50).map _ = []
    rw [hnr2 p0 hp0]
    rfl
  have hstate : r2.state = r1.state := by
    have h1 : r2.state = createAiEvidenceFromDbResults comps fid aid r2.dbIndex r1.state := by
      show createAiEvidenceFromDbResults comps fid aid _ r1.state
        = createAiEvidenceFromDbResults comps fid aid _ r1.state
      rfl
    rw [h1, hdbIdx]
    exact createAiEvidence_idem comps fid aid r1.dbIndex st0 hkeys
  exact ⟨hdocsLog, hdbLog, hdocsIdx, hdbIdx, hstate⟩

/-- Witness for C4 amended at a one-document, one-record evidence set:
the second run analyzes no document. -/
theorem runAudit_rerun_noop_witness :
    (runAudit (fun _ => some ⟨7/10, "", [], [], []⟩)
      (fun _ _ => some ⟨9/10, "", [], [], [42]⟩) [⟨42, some 2, some 1⟩] 1 7
      [⟨1, some "a", some "b"⟩] [("incidents", [⟨some 5, "x"⟩])]
      (runAudit (fun _ => some ⟨7/10, "", [], [], []⟩)
        (fun _ _ => some ⟨9/10, "", [], [], [42]⟩) [⟨42, some 2, some 1⟩] 1 7
        [⟨1, some "a", some "b"⟩] [("incidents", [⟨some 5, "x"⟩])] [] []
        ⟨[], [], 1⟩).docsIndex
      (runAudit (fun _ => some ⟨7/10, "", [], [], []⟩)
        (fun _ _ => some ⟨9/10, "", [], [], [42]⟩) [⟨42, some 2, some 1⟩] 1 7
        [⟨1, some "a", some "b"⟩] [("incidents", [⟨some 5, "x"⟩])] [] []
        ⟨[], [], 1⟩).dbIndex
      (runAudit (fun _ => some ⟨7/10, "", [], [], []⟩)
        (fun _ _ => some ⟨9/10, "", [], [], [42]⟩) [⟨42, some 2, some 1⟩] 1 7
        [⟨1, some "a", some "b"⟩] [("incidents", [⟨some 5, "x"⟩])] [] []
        ⟨[], [], 1⟩).state).analyzedDocs = [] :=
  (runAudit_rerun_noop (fun _ => some ⟨7/10, "", [], [], []⟩)
    (fun _ _ => some ⟨9/10, "", [], [], [42]⟩) [⟨42, some 2, some 1⟩] 1 7
    [⟨1, some "a", some "b"⟩] [("incidents", [⟨some 5, "x"⟩])] ⟨[], [], 1⟩
    (by decide) (by decide) (by exact List.pairwise_singleton _ _)
    (by
      intro p hp
      rcases List.mem_singleton.mp hp with rfl
      refine ⟨by decide, ?_⟩
      intro r hr
      rcases List.mem_singleton.mp hr with rfl
      exact ⟨⟨5, rfl, by decide⟩, rfl⟩)
    (by decide)).1
